import Mathlib

/-!
Futures, abort contexts and broadcast streams.

A shallow embedding of the Go package `futures` (files `future.go`, `abort.go`,
`stream/stream.go` and the untyped `stream.go`) and the properties proved about it.

Modelling conventions, used throughout:

* A Go object reached through a pointer becomes a record; a call takes the record
  and gives back an `Outcome` holding the record as the call leaves it.
* A call ends in one of three ways: it returns, it panics, or it never gets past a
  lock or a channel receive (`Outcome.blocked`).  A panic keeps the state the call
  leaves behind, so that what a caller sees after `recover()` can be stated.
* `sync.Mutex` and `sync.RWMutex` are a flag that is `true` while the lock is held.
  A call that locks and unlocks on the same path leaves the flag `false`; a call
  that panics between `Lock()` and a non-deferred `Unlock()` leaves it `true`.
* A `chan struct{}` that is only ever closed is a flag that is `true` once closed.
* A Go `error` is `Option GoError`, `nil` being `none`; an `interface{}` value is an
  `Option α`, `nil` being `none`.
-/

namespace Futures

/-! ## Common definitions -/

/-- A non-nil Go error value.  `ErrStreamClosed` is the package variable of that
name; `New id` stands for any other error object (`errors.New`, `context.Canceled`),
told apart by its identity. -/
inductive GoError where
  | ErrStreamClosed
  | New (id : Nat)
deriving DecidableEq, Repr

/-- The Go interface type `error`: `none` is `nil`. -/
abbrev error := Option GoError

/-- The three ways a call can end.  `ret r s`: it returns `r` and leaves state `s`.
`fault msg s`: it panics with `msg`, leaving state `s` behind.  `blocked`: it waits
forever on a lock or on a channel nobody closes, having changed nothing. -/
inductive Outcome (σ ρ : Type) where
  | ret (r : ρ) (s : σ)
  | fault (msg : String) (s : σ)
  | blocked
deriving DecidableEq, Repr

/-- The state a caller finds after a call made in state `s`: the state left by a
return or by a (recovered) panic, and `s` itself when the call is still blocked. -/
def Outcome.after {σ ρ : Type} (s : σ) : Outcome σ ρ → σ
  | .ret _ s' => s'
  | .fault _ s' => s'
  | .blocked => s

/-- Whether the call took a panic path. -/
def Outcome.faulted {σ ρ : Type} : Outcome σ ρ → Bool
  | .fault _ _ => true
  | _ => false

/-- Whether the call returned. -/
def Outcome.returned {σ ρ : Type} : Outcome σ ρ → Bool
  | .ret _ _ => true
  | _ => false

/-! ## future.go -/

/-- The struct `future`: `mu sync.Mutex`, `done chan struct{}`, `val interface{}`,
`err error`. -/
structure future (α : Type) where
  mu : Bool
  done : Bool
  val : Option α
  err : error
deriving DecidableEq, Repr

/-- Source `NewFuture`: a cell with an open `done` channel, zero `val` and `err`, and a
free mutex.  The returned `CompleteFunc` is `future.complete` on that cell. -/
def NewFuture (α : Type) : future α :=
  { mu := false, done := false, val := none, err := none }

/-- Source `(*future).Done`: the `done` channel, here its closed flag. -/
def future.Done {α : Type} (f : future α) : Bool :=
  f.done

/-- Source `(*future).Result`: receive from `done`, then return `f.val, f.err`.  The
receive blocks while the channel is open.  No lock is taken. -/
def future.Result {α : Type} (f : future α) : Outcome (future α) (Option α × error) :=
  if f.done then .ret (f.val, f.err) f else .blocked

/-- Source `(*future).complete`: `f.mu.Lock()`; if `done` is closed, panic (the mutex is not
released: `Unlock` is the last statement and is not deferred); otherwise store the
pair, close `done`, and `f.mu.Unlock()`. -/
def future.complete {α : Type} (f : future α) (val : Option α) (err : error) :
    Outcome (future α) Unit :=
  if f.mu then .blocked
  else if f.done then .fault "future completed multiple times" { f with mu := true }
  else .ret () { f with val := val, err := err, done := true }

/-- A call on a completion cell: `Result()` or `complete(val, err)`. -/
inductive FutureCall (α : Type) where
  | Result
  | Complete (val : Option α) (err : error)
deriving DecidableEq, Repr

/-- The cell after one call, however the call ended. -/
def future.call {α : Type} (f : future α) : FutureCall α → future α
  | .Result => f.Result.after f
  | .Complete val err => (f.complete val err).after f

/-- The cell after a sequence of calls, each made after the previous one ended
(returned, panicked and was recovered, or was left blocked in its goroutine). -/
def future.calls {α : Type} (f : future α) (cs : List (FutureCall α)) : future α :=
  cs.foldl future.call f

/-! ## abort.go -/

/-- What an abort context observes of its parent `context.Context` at one moment:
whether the channel of `Done()` is closed, and what `Err()`, `Deadline()` and
`Value(key)` return (times, keys and values are numbers; a nil value is `none`). -/
structure Context where
  done : Bool
  err : error
  deadline : Nat × Bool
  value : Nat → Option Nat

/-- The struct `abortContext`: `inner context.Context` (`none` is nil, else the
parent as it is now), `once sync.Once` (`true` once `Do` has run its function),
`future Future`.  The field `completeFunc` is `complete` of that same future and
is not stored. -/
structure abortContext (α : Type) where
  inner : Option Context
  once : Bool
  future : future α

/-- Source `NewAbort`: a fresh future, no parent.  The returned `AbortFunc` is
`abortContext.abort`. -/
def NewAbort (α : Type) : abortContext α :=
  { inner := none, once := false, future := NewFuture α }

/-- Source `WithAbort(ctx)`: a fresh future and `ctx` as parent.  The goroutine it starts
waits for the parent or for the new context to be done and, in the first case,
calls `abort(ctx.Err())`: that call is an `abort` call like any other. -/
def WithAbort (α : Type) (ctx : Context) : abortContext α :=
  { inner := some ctx, once := false, future := NewFuture α }

/-- Source `(*abortContext).Done`: the `Done` of the future. -/
def abortContext.Done {α : Type} (a : abortContext α) : Bool :=
  a.future.Done

/-- Source `(*abortContext).Err`: a `select` with a default; if the future is done, the
error of its `Result`, else nil.  It never blocks. -/
def abortContext.Err {α : Type} (a : abortContext α) : error :=
  if a.future.Done then
    match a.future.Result with
    | .ret res _ => res.2
    | _ => none
  else none

/-- The error the function passed to `once.Do` hands to `completeFunc`: the error
of the parent if there is a parent and it is done, else the argument of `abort`. -/
def abortContext.reason {α : Type} (a : abortContext α) (err : error) : error :=
  match a.inner with
  | some p => if p.done then p.err else err
  | none => err

/-- Source `(*abortContext).abort`: `a.once.Do(func() { ... })`.  If `Do` has run before,
nothing happens.  Otherwise the function runs: it calls `completeFunc(nil, reason)`
exactly once, on either of its two paths, and `Do` marks the `Once` as done (also
when the function panics: the mark is deferred). -/
def abortContext.abort {α : Type} (a : abortContext α) (err : error) :
    Outcome (abortContext α) Unit :=
  if a.once then .ret () a
  else
    match a.future.complete none (a.reason err) with
    | .ret _ f => .ret () { a with once := true, future := f }
    | .fault msg f => .fault msg { a with once := true, future := f }
    | .blocked => .blocked

/-- What can happen to an abort context: a call of its `AbortFunc` (by a user or by
the goroutine of `WithAbort`), or its parent being observed in a new state. -/
inductive AbortCall where
  | Abort (err : error)
  | Parent (p : Context)

/-- One step: an `abort` call, or the parent of a derived context changing (a
context without parent has nothing to observe). -/
def abortContext.step {α : Type} (a : abortContext α) : AbortCall → Outcome (abortContext α) Unit
  | .Abort err => a.abort err
  | .Parent p => .ret () { a with inner := a.inner.map fun _ => p }

/-- How often a step invokes `completeFunc`: once when it is an `abort` call that
finds the `Once` not yet done, never otherwise. -/
def abortContext.completeCalls {α : Type} (a : abortContext α) : AbortCall → Nat
  | .Abort _ => if a.once then 0 else 1
  | .Parent _ => 0

/-- A sequence of steps that all return: the number of `completeFunc` invocations
and the context they leave; `none` if a step panics or blocks. -/
def abortContext.run {α : Type} (a : abortContext α) :
    List AbortCall → Option (Nat × abortContext α)
  | [] => some (0, a)
  | c :: cs =>
    match a.step c with
    | .ret _ a' => (a'.run cs).map fun p => (a.completeCalls c + p.1, p.2)
    | _ => none

/-- A context as its constructor returns it: `NewAbort()` without a parent,
`WithAbort(p)` with the parent `p`. -/
def freshAbort (α : Type) : Option Context → abortContext α
  | none => NewAbort α
  | some p => WithAbort α p

/-- Source `(*abortContext).Deadline`: the zero time and `false` without a parent, else
the `Deadline()` of the parent. -/
def abortContext.Deadline {α : Type} (a : abortContext α) : Nat × Bool :=
  match a.inner with
  | none => (0, false)
  | some p => p.deadline

/-- Source `(*abortContext).Value`: nil without a parent, else the `Value(key)` of the
parent. -/
def abortContext.Value {α : Type} (a : abortContext α) (key : Nat) : Option Nat :=
  match a.inner with
  | none => none
  | some p => p.value key

/-- The two cases of the `select` in the goroutine of `WithAbort`: `parentDone` is
`case <-ctx.Done()`, whose body is the call `abortCtx.abort(ctx.Err())`; `selfDone`
is `case <-abortCtx.Done()`, whose body is empty. -/
inductive WatcherCase where
  | parentDone
  | selfDone
deriving DecidableEq, Repr

/-- The `select` of the goroutine, run when the parent is observed as `ctx`: the
case whose channel is closed; `pick` when both are closed (Go then chooses one of
the ready cases at random); `none` while neither is closed and the goroutine waits. -/
def abortContext.watcherSelect {α : Type} (a : abortContext α) (ctx : Context)
    (pick : WatcherCase) : Option WatcherCase :=
  match ctx.done, a.Done with
  | true, true => some pick
  | true, false => some .parentDone
  | false, true => some .selfDone
  | false, false => none

/-- The goroutine of `WithAbort(ctx)`: the `select`, then the body of the chosen
case.  It reads the parent the context holds; without one (`WithAbort(nil)`) the
call `ctx.Done()` is a nil dereference. -/
def abortContext.watcher {α : Type} (a : abortContext α) (pick : WatcherCase) :
    Outcome (abortContext α) Unit :=
  match a.inner with
  | none => .fault "invalid memory address or nil pointer dereference" a
  | some ctx =>
    match a.watcherSelect ctx pick with
    | some .parentDone => a.abort ctx.err
    | some .selfDone => .ret () a
    | none => .blocked

/-- A parent context used as a concrete input: cancelled, with error `New 7`, a
deadline and one value. -/
def cancelledDemo : Context :=
  { done := true, err := some (.New 7), deadline := (100, true),
    value := fun k => if k = 1 then some 11 else none }

/-- A parent context used as a concrete input: not cancelled, no deadline, no
value. -/
def liveDemo : Context :=
  { done := false, err := none, deadline := (0, false), value := fun _ => none }

/-! ## stream/stream.go -/

/-- The struct `streamReader[T]`: `items []T` and `closed bool`.  The embedded
`*streamTracker[T]` is the same for every reader of one stream and is not stored:
a reader is named by its position among the reader objects of its tracker.  The
slice `items` is taken by value: two slices that share a backing array after
`Clone` always end at the same array position (every `send` appends the same item
to both, `Close` drops the slice), so an append through one writes what an append
through the other writes. -/
structure streamReader (T : Type) where
  items : List T
  closed : Bool
deriving DecidableEq, Repr

/-- The struct `streamTracker[T]`: the embedded `sync.RWMutex` (`mu`, `true` while
write-locked), `readers map[*streamReader[T]]struct{}` (the keys, each a position
in `objects`), `err error`, `pending chan T` (`none` is the nil channel, `some c`
is the open channel number `c`; a channel that `send` closes is replaced in the
same locked region, so a channel stored here is never closed).  `objects` is the
heap of reader structs that embed a pointer to this tracker, in allocation order. -/
structure streamTracker (T : Type) where
  mu : Bool
  readers : List Nat
  err : error
  pending : Option Nat
  objects : List (streamReader T)
deriving DecidableEq, Repr

/-- The channel `Pending` hands out: `ready` is a channel made and closed inside
`Pending`, `shared c` is the open channel `c` of the tracker. -/
inductive Signal where
  | ready
  | shared (c : Nat)
deriving DecidableEq, Repr

/-- Source `NewStream`: a tracker with an open `pending` channel, no error, and one reader
(position `0`, empty queue, not closed) subscribed in `readers`.  The returned
`Stream` is reader `0`; the returned `SendFunc` is `streamTracker.send`. -/
def NewStream (T : Type) : streamTracker T :=
  { mu := false, readers := [0], err := none, pending := some 0,
    objects := [{ items := [], closed := false }] }

/-- The loop `for reader := range s.readers { reader.items = append(reader.items,
item) }`: every reader object that is a key of the map gets `item` appended.  The
loop visits each key once and touches only the visited reader, so the order of the
visit does not show. -/
def appendAll {T : Type} (readers : List Nat) (item : T)
    (objects : List (streamReader T)) : List (streamReader T) :=
  objects.mapIdx fun i h => if i ∈ readers then { h with items := h.items ++ [item] } else h

/-- Source `(*streamTracker[T]).send`: `s.Lock()`; with a nil `err`, panic if `pending` is
nil, else close `pending`, install a fresh channel and append `item` to every
subscribed reader; with a non-nil `err`, panic if `pending` is nil, else store
`err`, close `pending` and set it to nil; then `s.Unlock()`.  Both panics happen
between `Lock` and the non-deferred `Unlock`, so they leave the lock held. -/
def streamTracker.send {T : Type} (s : streamTracker T) (item : T) (err : error) :
    Outcome (streamTracker T) Unit :=
  if s.mu then .blocked
  else match err with
    | none =>
      match s.pending with
      | none => .fault "item sent to stream after error" { s with mu := true }
      | some c =>
        .ret () { s with pending := some (c + 1),
                         objects := appendAll s.readers item s.objects }
    | some e =>
      match s.pending with
      | none => .fault "multiple errors sent to stream" { s with mu := true }
      | some _ => .ret () { s with err := some e, pending := none }

/-- Source `(*streamReader[T]).Pending` on reader `r`: `s.RLock()` with a deferred
`RUnlock`; a closed channel if the reader is closed, has items, or `pending` is
nil; else the shared `pending` channel.  A position that names no reader object
stands for a nil receiver. -/
def streamReader.Pending {T : Type} (s : streamTracker T) (r : Nat) :
    Outcome (streamTracker T) Signal :=
  if s.mu then .blocked
  else match s.objects[r]? with
    | none => .fault "invalid memory address or nil pointer dereference" s
    | some h =>
      match s.pending with
      | none => .ret .ready s
      | some c =>
        if h.closed || decide (0 < h.items.length) then .ret .ready s
        else .ret (.shared c) s

/-- The part of `Next` after the receive: `s.RLock()` with a deferred `RUnlock`
(so the lock is released on every path, the panic included), then the four
branches of the source in order. -/
def streamReader.nextLocked {T : Type} [Inhabited T] (s : streamTracker T) (r : Nat) :
    Outcome (streamTracker T) (T × error) :=
  if s.mu then .blocked
  else match s.objects[r]? with
    | none => .fault "invalid memory address or nil pointer dereference" s
    | some h =>
      if h.closed then .ret (default, some .ErrStreamClosed) s
      else match h.items with
        | item :: rest =>
          .ret (item, none) { s with objects := s.objects.set r { h with items := rest } }
        | [] =>
          match s.pending with
          | none => .ret (default, s.err) s
          | some _ => .fault "pending closed but no items or error set" s

/-- Source `(*streamReader[T]).Next` on reader `r`, called with no other goroutine
running: `<-s.Pending()` returns at once on a closed channel and waits forever on
the shared open one; then the locked part runs on the same state. -/
def streamReader.Next {T : Type} [Inhabited T] (s : streamTracker T) (r : Nat) :
    Outcome (streamTracker T) (T × error) :=
  match streamReader.Pending s r with
  | .ret .ready _ => streamReader.nextLocked s r
  | .ret (.shared _) _ => .blocked
  | .fault msg s' => .fault msg s'
  | .blocked => .blocked

/-- Source `(*streamReader[T]).Clone` on reader `r`: `s.Lock()`; a new reader object with
the items of `r` and `closed` left at its zero value, added to `readers`;
`s.Unlock()`.  Returns the position of the new reader. -/
def streamReader.Clone {T : Type} (s : streamTracker T) (r : Nat) :
    Outcome (streamTracker T) Nat :=
  if s.mu then .blocked
  else match s.objects[r]? with
    | none => .fault "invalid memory address or nil pointer dereference" s
    | some h =>
      .ret s.objects.length
        { s with objects := s.objects ++ [{ items := h.items, closed := false }],
                 readers := s.readers.insert s.objects.length }

/-- Source `(*streamReader[T]).Close` on reader `r`: `s.Lock()`; `items = nil`,
`closed = true`, `delete(s.readers, s)`; `s.Unlock()`. -/
def streamReader.Close {T : Type} (s : streamTracker T) (r : Nat) :
    Outcome (streamTracker T) Unit :=
  if s.mu then .blocked
  else match s.objects[r]? with
    | none => .fault "invalid memory address or nil pointer dereference" s
    | some _ =>
      .ret () { s with objects := s.objects.set r { items := [], closed := true },
                       readers := s.readers.filter fun k => k != r }

/-- A call on a stream: the producer `send`, or a reader method on reader `r`. -/
inductive StreamCall (T : Type) where
  | Send (item : T) (err : error)
  | Pending (r : Nat)
  | Next (r : Nat)
  | Clone (r : Nat)
  | Close (r : Nat)
deriving DecidableEq, Repr

/-- The state a returning call leaves; `none` when the call panics or blocks. -/
def Outcome.retState {σ ρ : Type} : Outcome σ ρ → Option σ
  | .ret _ s => some s
  | _ => none

/-- The stream after one call that returns; `none` when it does not return. -/
def streamTracker.callRet {T : Type} [Inhabited T] (s : streamTracker T) :
    StreamCall T → Option (streamTracker T)
  | .Send item err => (s.send item err).retState
  | .Pending r => (streamReader.Pending s r).retState
  | .Next r => (streamReader.Next s r).retState
  | .Clone r => (streamReader.Clone s r).retState
  | .Close r => (streamReader.Close s r).retState

/-- The stream after a sequence of calls, each returning before the next is made;
`none` as soon as one of them panics or blocks. -/
def streamTracker.callsRet {T : Type} [Inhabited T] (s : streamTracker T) :
    List (StreamCall T) → Option (streamTracker T)
  | [] => some s
  | c :: cs => (s.callRet c).bind fun s' => s'.callsRet cs

/-- A stream state reached from `NewStream` by calls that all returned. -/
def Reachable {T : Type} [Inhabited T] (s : streamTracker T) : Prop :=
  ∃ cs : List (StreamCall T), (NewStream T).callsRet cs = some s

/-- The results of `n` successive `Next` calls on reader `r` and the state they
leave; `none` if one of them does not return. -/
def streamReader.nexts {T : Type} [Inhabited T] (s : streamTracker T) (r : Nat) :
    Nat → Option (List (T × error) × streamTracker T)
  | 0 => some ([], s)
  | n + 1 =>
    match streamReader.Next s r with
    | .ret res s' => (streamReader.nexts s' r n).map fun p => (res :: p.1, p.2)
    | _ => none

/-- The calls that send the items `xs` one after the other, each with a nil error. -/
def sendItems {T : Type} (xs : List T) : List (StreamCall T) :=
  xs.map fun x => StreamCall.Send x none

/-- Every subscribed reader object with `xs` appended to its queue: what the loop of
`send` has done after the items `xs` were sent in order. -/
def appendMany {T : Type} (readers : List Nat) (xs : List T)
    (objects : List (streamReader T)) : List (streamReader T) :=
  objects.mapIdx fun i h => if i ∈ readers then { h with items := h.items ++ xs } else h

/-- The `Next` calls made one after the other on the readers listed in `order`:
each result paired with the reader that got it, and the state left; `none` if one
of the calls does not return. -/
def streamReader.nextSeq {T : Type} [Inhabited T] (s : streamTracker T) :
    List Nat → Option (List (Nat × (T × error)) × streamTracker T)
  | [] => some ([], s)
  | r :: order =>
    match streamReader.Next s r with
    | .ret res s' => (streamReader.nextSeq s' order).map fun p => ((r, res) :: p.1, p.2)
    | _ => none

/-- The results reader `r` got, in order, out of a list of results paired with
readers. -/
def resultsFor {ρ : Type} (r : Nat) (out : List (Nat × ρ)) : List ρ :=
  (out.filter fun p => p.1 == r).map Prod.snd

/-- A sequence of calls run as by `callsRet`, keeping the result of every `Next`
paired with the reader it was called on; `none` if a call panics or blocks. -/
def streamTracker.trace {T : Type} [Inhabited T] (s : streamTracker T) :
    List (StreamCall T) → Option (List (Nat × (T × error)) × streamTracker T)
  | [] => some ([], s)
  | .Next r :: cs =>
    match streamReader.Next s r with
    | .ret res s' => (s'.trace cs).map fun p => ((r, res) :: p.1, p.2)
    | _ => none
  | c :: cs => (s.callRet c).bind fun s' => s'.trace cs

/-- The items sent by the calls of a sequence, in order. -/
def sentItems {T : Type} : List (StreamCall T) → List T
  | [] => []
  | .Send item none :: cs => item :: sentItems cs
  | _ :: cs => sentItems cs

/-- The `k`-th result a reader gets that starts at the front of the item history `H`
of a stream whose terminal error is `e`: the `k`-th item with a nil error, and past
the items the zero value with `e`. -/
def expect {T : Type} [Inhabited T] (H : List T) (e : error) (k : Nat) : T × error :=
  match H[k]? with
  | some x => (x, none)
  | none => (default, e)

/-- Every reader object is a key of `readers` exactly when it is not closed. -/
def Subscribed {T : Type} (s : streamTracker T) : Prop :=
  ∀ k h, s.objects[k]? = some h → (k ∈ s.readers ↔ h.closed = false)

/-- Reader `r` is open and subscribed, has read `n` results of the history `H`, and
holds the rest of `H` in its queue. -/
def Tracks {T : Type} (s : streamTracker T) (r : Nat) (H : List T) (n : Nat) : Prop :=
  s.mu = false ∧ r ∈ s.readers ∧
  s.objects[r]? = some { items := H.drop n, closed := false } ∧
  (s.pending ≠ none → n ≤ H.length)

/-- A stream state used as a concrete input: two items `1`, `2` were sent and the
reader has read the first. -/
def forkDemo : streamTracker Nat :=
  { mu := false, readers := [0], err := none, pending := some 2,
    objects := [{ items := [2], closed := false }] }

/-- Reader `R` is closed: its flag is set, its queue is empty and it is not a key of
`readers`; the lock is free. -/
def ClosedAt {T : Type} (s : streamTracker T) (R : Nat) : Prop :=
  s.mu = false ∧ R ∉ s.readers ∧ s.objects[R]? = some { items := [], closed := true }

/-- A stream state used as a concrete input: the item `5` was sent to a fresh
stream. -/
def itemDemo : streamTracker Nat :=
  { mu := false, readers := [0], err := none, pending := some 1,
    objects := [{ items := [5], closed := false }] }

/-- A stream state used as a concrete input: a clone (reader `1`) was taken from a
fresh stream and the item `5` was sent. -/
def pairDemo : streamTracker Nat :=
  { mu := false, readers := [1, 0], err := none, pending := some 1,
    objects := [{ items := [5], closed := false }, { items := [5], closed := false }] }

/-- The terminal error `E` has been sent: the terminal slot is set (`pending` is
nil), `err` holds `E`, and the lock is free. -/
def Terminal {T : Type} (s : streamTracker T) (E : GoError) : Prop :=
  s.mu = false ∧ s.pending = none ∧ s.err = some E

/-- Every closed reader object has an empty queue. -/
def ClosedEmpty {T : Type} (s : streamTracker T) : Prop :=
  ∀ (k : Nat) (h : streamReader T), s.objects[k]? = some h → h.closed = true → h.items = []

/-- The terminal slot is set (`pending` is nil) exactly when the stored error is
non-nil. -/
def SlotAgrees {T : Type} (s : streamTracker T) : Prop :=
  s.pending = none ↔ s.err ≠ none

/-- Every item in a queue is one of the items of `L`. -/
def QueuedFrom {T : Type} (s : streamTracker T) (L : List T) : Prop :=
  ∀ (k : Nat) (h : streamReader T), s.objects[k]? = some h → ∀ x ∈ h.items, x ∈ L

/-- A stream state used as a concrete input: the reader of a fresh stream was
closed, then cloned, then the item `5` was sent. -/
def closedCloneDemo : streamTracker Nat :=
  { mu := false, readers := [1], err := none, pending := some 1,
    objects := [{ items := [], closed := true }, { items := [5], closed := false }] }

/-! ## stream.go (the untyped stream of package `futures`) -/

namespace Untyped

/-- The struct `streamReader` of `stream.go`: `items []*interface{}` and
`closed bool`.  Every pointer in `items` is the address of the parameter `item` of
one `send` call, which nothing writes afterwards, so the list holds the values
pointed to (an `interface{}` value is an `Option α`, nil being `none`). -/
structure streamReader (α : Type) where
  items : List (Option α)
  closed : Bool
deriving DecidableEq, Repr

/-- The struct `streamTracker` of `stream.go`: the embedded `sync.RWMutex`,
`readers map[*streamReader]struct{}`, `err error`, `pending chan struct{}`, and
the heap of reader structs that point to it (as for the generic stream). -/
structure streamTracker (α : Type) where
  mu : Bool
  readers : List Nat
  err : error
  pending : Option Nat
  objects : List (streamReader α)
deriving DecidableEq, Repr

/-- Source `NewStream` of `stream.go`: an open `pending` channel, no error, and one
subscribed reader (position `0`). -/
def NewStream (α : Type) : streamTracker α :=
  { mu := false, readers := [0], err := none, pending := some 0,
    objects := [{ items := [], closed := false }] }

/-- The loop `for reader := range s.readers { reader.items = append(reader.items,
&item) }` of `stream.go`. -/
def appendAll {α : Type} (readers : List Nat) (item : Option α)
    (objects : List (streamReader α)) : List (streamReader α) :=
  objects.mapIdx fun i h => if i ∈ readers then { h with items := h.items ++ [item] } else h

/-- Source `(*streamTracker).send` of `stream.go`: first, before the lock is taken,
panic if both `item` and `err` are non-nil; then as the generic `send`. -/
def streamTracker.send {α : Type} (s : streamTracker α) (item : Option α) (err : error) :
    Outcome (streamTracker α) Unit :=
  if item.isSome && err.isSome then .fault "cannot send both item and error" s
  else if s.mu then .blocked
  else match err with
    | none =>
      match s.pending with
      | none => .fault "item sent to stream after error" { s with mu := true }
      | some c =>
        .ret () { s with pending := some (c + 1),
                         objects := appendAll s.readers item s.objects }
    | some e =>
      match s.pending with
      | none => .fault "multiple errors sent to stream" { s with mu := true }
      | some _ => .ret () { s with err := some e, pending := none }

/-- Source `(*streamReader).Pending` of `stream.go`. -/
def streamReader.Pending {α : Type} (s : streamTracker α) (r : Nat) :
    Outcome (streamTracker α) Signal :=
  if s.mu then .blocked
  else match s.objects[r]? with
    | none => .fault "invalid memory address or nil pointer dereference" s
    | some h =>
      match s.pending with
      | none => .ret .ready s
      | some c =>
        if h.closed || decide (0 < h.items.length) then .ret .ready s
        else .ret (.shared c) s

/-- The part of `Next` of `stream.go` after the receive: the four branches of the
source in order, under `RLock` with a deferred `RUnlock`. -/
def streamReader.nextLocked {α : Type} (s : streamTracker α) (r : Nat) :
    Outcome (streamTracker α) (Option α × error) :=
  if s.mu then .blocked
  else match s.objects[r]? with
    | none => .fault "invalid memory address or nil pointer dereference" s
    | some h =>
      if h.closed then .ret (none, some .ErrStreamClosed) s
      else match h.items with
        | item :: rest =>
          .ret (item, none) { s with objects := s.objects.set r { h with items := rest } }
        | [] =>
          match s.pending with
          | none => .ret (none, s.err) s
          | some _ => .fault "pending closed but no items or error set" s

/-- Source `(*streamReader).Next` of `stream.go`, called with no other goroutine
running. -/
def streamReader.Next {α : Type} (s : streamTracker α) (r : Nat) :
    Outcome (streamTracker α) (Option α × error) :=
  match streamReader.Pending s r with
  | .ret .ready _ => streamReader.nextLocked s r
  | .ret (.shared _) _ => .blocked
  | .fault msg s' => .fault msg s'
  | .blocked => .blocked

/-- Source `(*streamReader).Clone` of `stream.go`: the new reader object takes the
items and also the `closed` flag of `r`, and is added to `readers`. -/
def streamReader.Clone {α : Type} (s : streamTracker α) (r : Nat) :
    Outcome (streamTracker α) Nat :=
  if s.mu then .blocked
  else match s.objects[r]? with
    | none => .fault "invalid memory address or nil pointer dereference" s
    | some h =>
      .ret s.objects.length
        { s with objects := s.objects ++ [{ items := h.items, closed := h.closed }],
                 readers := s.readers.insert s.objects.length }

/-- Source `(*streamReader).Close` of `stream.go`. -/
def streamReader.Close {α : Type} (s : streamTracker α) (r : Nat) :
    Outcome (streamTracker α) Unit :=
  if s.mu then .blocked
  else match s.objects[r]? with
    | none => .fault "invalid memory address or nil pointer dereference" s
    | some _ =>
      .ret () { s with objects := s.objects.set r { items := [], closed := true },
                       readers := s.readers.filter fun k => k != r }

end Untyped

/-- An untyped reader object read as a reader object of the generic stream at the
item type `interface{}`. -/
def readerToGeneric {α : Type} (h : Untyped.streamReader α) : streamReader (Option α) :=
  { items := h.items, closed := h.closed }

/-- An untyped stream state read as a state of the generic stream at the item type
`interface{}`: the same fields. -/
def toGeneric {α : Type} (u : Untyped.streamTracker α) : streamTracker (Option α) :=
  { mu := u.mu, readers := u.readers, err := u.err, pending := u.pending,
    objects := u.objects.map readerToGeneric }

/-- An outcome with its state read through `f`. -/
def Outcome.mapState {σ τ ρ : Type} (f : σ → τ) : Outcome σ ρ → Outcome τ ρ
  | .ret r s => .ret r (f s)
  | .fault msg s => .fault msg (f s)
  | .blocked => .blocked

/-! ### Lemmas on the completion cell -/

theorem future.call_keeps {α : Type} (f : future α) (c : FutureCall α)
    (hd : f.done = true) :
    (f.call c).done = true ∧ (f.call c).val = f.val ∧ (f.call c).err = f.err := by
  cases c with
  | Result => simp [future.call, future.Result, hd, Outcome.after]
  | Complete val err =>
    cases hm : f.mu <;> simp [future.call, future.complete, hd, hm, Outcome.after]

theorem future.calls_keeps {α : Type} (cs : List (FutureCall α)) (f : future α)
    (hd : f.done = true) :
    (f.calls cs).done = true ∧ (f.calls cs).val = f.val ∧ (f.calls cs).err = f.err := by
  induction cs generalizing f with
  | nil => exact ⟨hd, rfl, rfl⟩
  | cons c cs ih =>
    obtain ⟨h1, h2, h3⟩ := future.call_keeps f c hd
    obtain ⟨k1, k2, k3⟩ := ih (f.call c) h1
    exact ⟨k1, k2.trans h2, k3.trans h3⟩

/-- With the mutex free, `complete` panics exactly on a completed cell, and a
panicking `complete` stores nothing. -/
theorem future.complete_faulted_of_free {α : Type} (f : future α) (val : Option α)
    (err : error) (hm : f.mu = false) :
    ((f.complete val err).faulted = true ↔ f.done = true) ∧
    ((f.complete val err).faulted = true →
      ((f.complete val err).after f).val = f.val ∧
      ((f.complete val err).after f).err = f.err ∧
      ((f.complete val err).after f).done = f.done) := by
  cases hd : f.done <;> simp [future.complete, hm, hd, Outcome.faulted, Outcome.after]

/-! ### Claims on the completion cell -/

/-- C1. Once `complete(v, e)` has run on a fresh cell, `Result` returns exactly
`(v, e)` after every sequence of further calls (`Result` calls, `complete` attempts
that panic and are recovered or that stay blocked), it leaves the cell as it found
it, and the stored pair and the closed `done` channel are the ones set by the first
`complete`. -/
theorem future_result_stable {α : Type} (v : Option α) (e : error) :
    ∃ f1 : future α, (NewFuture α).complete v e = .ret () f1 ∧
      ∀ cs : List (FutureCall α),
        (f1.calls cs).Result = .ret (v, e) (f1.calls cs) ∧
        (f1.calls cs).done = true ∧ (f1.calls cs).val = v ∧ (f1.calls cs).err = e := by
  refine ⟨{ mu := false, done := true, val := v, err := e }, rfl, ?_⟩
  intro cs
  obtain ⟨h1, h2, h3⟩ :=
    future.calls_keeps cs ({ mu := false, done := true, val := v, err := e } : future α) rfl
  refine ⟨?_, h1, h2, h3⟩
  simp [future.Result, h1, h2, h3]

/-- C2 (failing input). On a fresh cell, the first `complete` returns, the second
panics with "future completed multiple times" and stores nothing but leaves the
mutex held, and a third `complete`, made after the panic was recovered, does not
panic: it blocks in `f.mu.Lock()`, although the cell is completed. -/
theorem future_complete_third_call_blocks {α : Type} (v v' v'' : Option α)
    (e e' e'' : error) :
    ∃ f1 f2 : future α,
      (NewFuture α).complete v e = .ret () f1 ∧
      f1.complete v' e' = .fault "future completed multiple times" f2 ∧
      f2.done = true ∧ f2.val = v ∧ f2.err = e ∧ f2.mu = true ∧
      f2.complete v'' e'' = .blocked ∧
      (f2.complete v'' e'').faulted = false :=
  ⟨{ mu := false, done := true, val := v, err := e },
   { mu := true, done := true, val := v, err := e },
   rfl, rfl, rfl, rfl, rfl, rfl, rfl, rfl⟩

/-! ### Lemmas on the abort context -/

/-- Once `Do` has run, every further sequence of steps returns, invokes
`completeFunc` no more, and leaves the future untouched. -/
theorem run_of_once {α : Type} (cs : List AbortCall) (a : abortContext α)
    (ho : a.once = true) :
    ∃ a', a.run cs = some (0, a') ∧ a'.once = true ∧ a'.future = a.future := by
  induction cs generalizing a with
  | nil => exact ⟨a, rfl, ho, rfl⟩
  | cons c cs ih =>
    cases c with
    | Abort err =>
      obtain ⟨a', h1, h2, h3⟩ := ih a ho
      refine ⟨a', ?_, h2, h3⟩
      simp [abortContext.run, abortContext.step, abortContext.abort, ho, h1,
        abortContext.completeCalls]
    | Parent p =>
      obtain ⟨a', h1, h2, h3⟩ := ih { a with inner := a.inner.map fun _ => p } ho
      refine ⟨a', ?_, h2, h3⟩
      simp [abortContext.run, abortContext.step, h1, abortContext.completeCalls]

/-- From a context whose `Once` is not done and whose future is fresh, every
sequence of steps returns; it ends either still fresh with no `completeFunc`
invocation, or done with exactly one. -/
theorem run_of_fresh {α : Type} (cs : List AbortCall) (a : abortContext α)
    (ho : a.once = false) (hf : a.future = NewFuture α) :
    ∃ n a', a.run cs = some (n, a') ∧
      ((n = 0 ∧ a'.once = false ∧ a'.future = NewFuture α) ∨
       (n = 1 ∧ a'.once = true ∧ a'.future.done = true)) := by
  induction cs generalizing a with
  | nil => exact ⟨0, a, rfl, Or.inl ⟨rfl, ho, hf⟩⟩
  | cons c cs ih =>
    cases c with
    | Abort err =>
      obtain ⟨a', h1, h2, h3⟩ := run_of_once cs
        ({ a with once := true,
                  future := { mu := false, done := true, val := none, err := a.reason err } } :
          abortContext α) rfl
      refine ⟨1, a', ?_, Or.inr ⟨rfl, h2, by rw [h3]⟩⟩
      simp [abortContext.run, abortContext.step, abortContext.abort, ho, hf, NewFuture,
        future.complete, abortContext.completeCalls, h1]
    | Parent p =>
      obtain ⟨n, a', h1, h2⟩ := ih { a with inner := a.inner.map fun _ => p } ho hf
      refine ⟨n, a', ?_, h2⟩
      simp [abortContext.run, abortContext.step, h1, abortContext.completeCalls]

theorem run_append {α : Type} (cs ds : List AbortCall) (a a' a'' : abortContext α)
    (n m : Nat) (h1 : a.run cs = some (n, a')) (h2 : a'.run ds = some (m, a'')) :
    a.run (cs ++ ds) = some (n + m, a'') := by
  induction cs generalizing a n with
  | nil =>
    simp only [abortContext.run, Option.some.injEq, Prod.mk.injEq] at h1
    obtain ⟨rfl, rfl⟩ := h1
    simpa using h2
  | cons c cs ih =>
    simp only [abortContext.run, List.cons_append] at h1 ⊢
    rcases hs : a.step c with ⟨u, b⟩ | ⟨msg, b⟩ | _
    · simp only [hs, Option.map_eq_some', Prod.mk.injEq, Prod.exists] at h1 ⊢
      obtain ⟨k, b', hb, rfl, rfl⟩ := h1
      exact ⟨k + m, a'', ih b k hb, by omega, rfl⟩
    · simp [hs] at h1
    · simp [hs] at h1

/-! ### Lemmas on the stream -/

theorem getElem?_appendAll {T : Type} (readers : List Nat) (item : T)
    (objects : List (streamReader T)) (i : Nat) :
    (appendAll readers item objects)[i]? =
      (objects[i]?).map fun h =>
        if i ∈ readers then { h with items := h.items ++ [item] } else h := by
  simp [appendAll, List.getElem?_mapIdx]

theorem length_appendAll {T : Type} (readers : List Nat) (item : T)
    (objects : List (streamReader T)) :
    (appendAll readers item objects).length = objects.length := by
  simp [appendAll]

theorem set_of_getElem? {β : Type} (l : List β) (i : Nat) (a : β) (h : l[i]? = some a) :
    l.set i a = l := by
  apply List.ext_getElem?
  intro j
  by_cases hij : i = j
  · subst hij
    rw [List.getElem?_set]
    have hlt : i < l.length := by
      by_contra hc
      rw [List.getElem?_eq_none (Nat.le_of_not_lt hc)] at h
      cases h
    simp [hlt, h]
  · rw [List.getElem?_set_ne hij]

theorem lt_length_of_getElem? {β : Type} (l : List β) (i : Nat) (a : β)
    (h : l[i]? = some a) : i < l.length := by
  by_contra hc
  rw [List.getElem?_eq_none (Nat.le_of_not_lt hc)] at h
  cases h

theorem Pending_of_ready {T : Type} (s : streamTracker T) (r : Nat) (h : streamReader T)
    (hm : s.mu = false) (hr : s.objects[r]? = some h)
    (hp : h.closed = true ∨ h.items ≠ [] ∨ s.pending = none) :
    streamReader.Pending s r = .ret .ready s := by
  unfold streamReader.Pending
  simp only [hm, hr]
  cases hpe : s.pending with
  | none => simp
  | some c =>
    rcases hp with hp | hp | hp
    · simp [hp]
    · have : 0 < h.items.length := List.length_pos.mpr hp
      simp [this]
    · rw [hpe] at hp; cases hp

theorem Pending_of_waiting {T : Type} (s : streamTracker T) (r : Nat) (h : streamReader T)
    (c : Nat) (hm : s.mu = false) (hr : s.objects[r]? = some h)
    (hc : h.closed = false) (hi : h.items = []) (hp : s.pending = some c) :
    streamReader.Pending s r = .ret (.shared c) s := by
  unfold streamReader.Pending
  simp [hm, hr, hp, hc, hi]

theorem Next_of_closed {T : Type} [Inhabited T] (s : streamTracker T) (r : Nat)
    (h : streamReader T) (hm : s.mu = false) (hr : s.objects[r]? = some h)
    (hc : h.closed = true) :
    streamReader.Next s r = .ret (default, some .ErrStreamClosed) s := by
  unfold streamReader.Next
  rw [Pending_of_ready s r h hm hr (Or.inl hc)]
  simp [streamReader.nextLocked, hm, hr, hc]

theorem Next_of_cons {T : Type} [Inhabited T] (s : streamTracker T) (r : Nat)
    (h : streamReader T) (x : T) (rest : List T) (hm : s.mu = false)
    (hr : s.objects[r]? = some h) (hc : h.closed = false) (hi : h.items = x :: rest) :
    streamReader.Next s r =
      .ret (x, none) { s with objects := s.objects.set r { h with items := rest } } := by
  unfold streamReader.Next
  rw [Pending_of_ready s r h hm hr (Or.inr (Or.inl (by simp [hi])))]
  simp [streamReader.nextLocked, hm, hr, hc, hi]

theorem Next_of_terminal {T : Type} [Inhabited T] (s : streamTracker T) (r : Nat)
    (h : streamReader T) (hm : s.mu = false) (hr : s.objects[r]? = some h)
    (hc : h.closed = false) (hi : h.items = []) (hp : s.pending = none) :
    streamReader.Next s r = .ret (default, s.err) s := by
  unfold streamReader.Next
  rw [Pending_of_ready s r h hm hr (Or.inr (Or.inr hp))]
  simp [streamReader.nextLocked, hm, hr, hc, hi, hp]

theorem Next_of_waiting {T : Type} [Inhabited T] (s : streamTracker T) (r : Nat)
    (h : streamReader T) (c : Nat) (hm : s.mu = false) (hr : s.objects[r]? = some h)
    (hc : h.closed = false) (hi : h.items = []) (hp : s.pending = some c) :
    streamReader.Next s r = .blocked := by
  unfold streamReader.Next
  rw [Pending_of_waiting s r h c hm hr hc hi hp]

/-- Draining: `q.length` successive `Next` calls on an open reader whose queue is
`q ++ rest` return the items of `q` in order and leave `rest` queued, every other
reader and the tracker as they were. -/
theorem nexts_of_queue {T : Type} [Inhabited T] (q rest : List T) (s : streamTracker T)
    (r : Nat) (hm : s.mu = false)
    (hr : s.objects[r]? = some { items := q ++ rest, closed := false }) :
    streamReader.nexts s r q.length =
      some (q.map fun x => (x, none),
        { s with objects := s.objects.set r { items := rest, closed := false } }) := by
  induction q generalizing s with
  | nil =>
    simp only [List.length_nil, streamReader.nexts, List.map_nil]
    rw [set_of_getElem? s.objects r _ (by simpa using hr)]
  | cons x q ih =>
    have hlt := lt_length_of_getElem? _ _ _ hr
    simp only [List.length_cons, streamReader.nexts]
    rw [Next_of_cons s r _ x (q ++ rest) hm hr rfl rfl]
    simp only
    have hstep := ih { s with objects := s.objects.set r { items := q ++ rest, closed := false } }
      hm (by simp [List.getElem?_set, hlt])
    rw [hstep]
    simp [List.set_set]

theorem getElem?_appendMany {T : Type} (readers : List Nat) (xs : List T)
    (objects : List (streamReader T)) (i : Nat) :
    (appendMany readers xs objects)[i]? =
      (objects[i]?).map fun h =>
        if i ∈ readers then { h with items := h.items ++ xs } else h := by
  simp [appendMany, List.getElem?_mapIdx]

theorem appendMany_nil {T : Type} (readers : List Nat) (objects : List (streamReader T)) :
    appendMany readers [] objects = objects := by
  apply List.ext_getElem?
  intro i
  rw [getElem?_appendMany]
  cases objects[i]? <;> simp

theorem appendMany_appendAll {T : Type} (readers : List Nat) (x : T) (xs : List T)
    (objects : List (streamReader T)) :
    appendMany readers xs (appendAll readers x objects) = appendMany readers (x :: xs) objects := by
  apply List.ext_getElem?
  intro i
  rw [getElem?_appendMany, getElem?_appendAll, getElem?_appendMany]
  cases objects[i]? with
  | none => rfl
  | some h => by_cases hi : i ∈ readers <;> simp [hi]

/-- Sending the items `xs` on a stream whose lock is free and whose terminal slot
is unset returns every time, and leaves `xs` appended to every subscribed reader. -/
theorem callsRet_sendItems {T : Type} [Inhabited T] (xs : List T) (s : streamTracker T)
    (c : Nat) (hm : s.mu = false) (hp : s.pending = some c) :
    s.callsRet (sendItems xs) =
      some { s with pending := some (c + xs.length),
                    objects := appendMany s.readers xs s.objects } := by
  induction xs generalizing s c with
  | nil =>
    cases s
    simp_all [sendItems, streamTracker.callsRet, appendMany_nil]
  | cons x xs ih =>
    have hstep := ih { s with pending := some (c + 1),
                              objects := appendAll s.readers x s.objects } (c + 1) hm rfl
    simp only [sendItems, List.map_cons, streamTracker.callsRet, streamTracker.callRet,
      streamTracker.send, hm, hp, Outcome.retState, Option.some_bind] at hstep ⊢
    simp only [Bool.false_eq_true, if_false, Outcome.retState, Option.some_bind]
    rw [hstep, appendMany_appendAll]
    simp only [List.length_cons]
    congr 3
    omega

/-- What a returning `Next` did: one of the three returning branches of the source. -/
theorem Next_ret_inv {T : Type} [Inhabited T] (s s' : streamTracker T) (r : Nat)
    (res : T × error) (hn : streamReader.Next s r = .ret res s') :
    s.mu = false ∧ ∃ h, s.objects[r]? = some h ∧
      ((h.closed = true ∧ res = (default, some .ErrStreamClosed) ∧ s' = s) ∨
       (h.closed = false ∧ ∃ x rest, h.items = x :: rest ∧ res = (x, none) ∧
          s' = { s with objects := s.objects.set r { h with items := rest } }) ∨
       (h.closed = false ∧ h.items = [] ∧ s.pending = none ∧
          res = (default, s.err) ∧ s' = s)) := by
  have hm : s.mu = false := by
    cases hmu : s.mu with
    | false => rfl
    | true => simp [streamReader.Next, streamReader.Pending, hmu] at hn
  refine ⟨hm, ?_⟩
  have hex : ∃ h, s.objects[r]? = some h := by
    cases hr : s.objects[r]? with
    | some h => exact ⟨h, rfl⟩
    | none => simp [streamReader.Next, streamReader.Pending, hm, hr] at hn
  obtain ⟨h, hr⟩ := hex
  refine ⟨h, hr, ?_⟩
  rcases Bool.eq_false_or_eq_true h.closed with hc | hc
  · rw [Next_of_closed s r h hm hr hc] at hn
    injection hn with h1 h2
    exact Or.inl ⟨hc, h1.symm, h2.symm⟩
  · rcases hi : h.items with _ | ⟨x, rest⟩
    · rcases hp : s.pending with _ | c
      · rw [Next_of_terminal s r h hm hr hc hi hp] at hn
        injection hn with h1 h2
        exact Or.inr (Or.inr ⟨hc, rfl, rfl, h1.symm, h2.symm⟩)
      · rw [Next_of_waiting s r h c hm hr hc hi hp] at hn
        cases hn
    · rw [Next_of_cons s r h x rest hm hr hc hi] at hn
      injection hn with h1 h2
      exact Or.inr (Or.inl ⟨hc, x, rest, rfl, h1.symm, h2.symm⟩)

/-- Frame of `Next`: a returning `Next` on reader `r` changes nothing but the queue
of `r`. -/
theorem Next_frame {T : Type} [Inhabited T] (s s' : streamTracker T) (r : Nat)
    (res : T × error) (hn : streamReader.Next s r = .ret res s') :
    s'.mu = s.mu ∧ s'.readers = s.readers ∧ s'.err = s.err ∧ s'.pending = s.pending ∧
    s'.objects.length = s.objects.length ∧
    ∀ k, k ≠ r → s'.objects[k]? = s.objects[k]? := by
  obtain ⟨_, h, _, hcase⟩ := Next_ret_inv s s' r res hn
  rcases hcase with ⟨_, _, rfl⟩ | ⟨_, x, rest, _, _, rfl⟩ | ⟨_, _, _, _, rfl⟩
  · simp
  · refine ⟨rfl, rfl, rfl, rfl, by simp, ?_⟩
    intro k hk
    simp [List.getElem?_set_ne (Ne.symm hk)]
  · simp

/-- What a returning `send` did. -/
theorem send_ret_inv {T : Type} (s s' : streamTracker T) (item : T) (err : error)
    (hs : s.send item err = .ret () s') :
    s.mu = false ∧ ∃ c, s.pending = some c ∧
      ((err = none ∧ s' = { s with pending := some (c + 1),
                                   objects := appendAll s.readers item s.objects }) ∨
       (∃ e, err = some e ∧ s' = { s with err := some e, pending := none })) := by
  have hm : s.mu = false := by
    cases hmu : s.mu with
    | false => rfl
    | true => simp [streamTracker.send, hmu] at hs
  refine ⟨hm, ?_⟩
  rcases hp : s.pending with _ | c
  · cases err <;> simp [streamTracker.send, hm, hp] at hs
  · refine ⟨c, rfl, ?_⟩
    cases err with
    | none =>
      simp only [streamTracker.send, hm, hp] at hs
      injection hs with _ h2
      exact Or.inl ⟨rfl, by rw [← h2, hm]⟩
    | some e =>
      simp only [streamTracker.send, hm, hp] at hs
      injection hs with _ h2
      exact Or.inr ⟨e, rfl, by rw [← h2, hm]⟩

/-- What a returning `Pending` did: nothing. -/
theorem Pending_ret_inv {T : Type} (s s' : streamTracker T) (r : Nat) (sig : Signal)
    (hp : streamReader.Pending s r = .ret sig s') : s.mu = false ∧ s' = s := by
  have hm : s.mu = false := by
    cases hmu : s.mu with
    | false => rfl
    | true => simp [streamReader.Pending, hmu] at hp
  refine ⟨hm, ?_⟩
  rcases hr : s.objects[r]? with _ | h
  · simp [streamReader.Pending, hm, hr] at hp
  · rcases hpe : s.pending with _ | c
    · simp [streamReader.Pending, hm, hr, hpe] at hp
      exact hp.2.symm
    · by_cases hq : (h.closed || decide (0 < h.items.length)) = true
      · simp only [streamReader.Pending, hm, hr, hpe, hq] at hp
        injection hp with _ h2
        exact h2.symm
      · simp only [streamReader.Pending, hm, hr, hpe, hq] at hp
        injection hp with _ h2
        exact h2.symm

/-- What a returning `Clone` did. -/
theorem Clone_ret_inv {T : Type} (s s' : streamTracker T) (r k : Nat)
    (hc : streamReader.Clone s r = .ret k s') :
    s.mu = false ∧ ∃ h, s.objects[r]? = some h ∧ k = s.objects.length ∧
      s' = { s with objects := s.objects ++ [{ items := h.items, closed := false }],
                    readers := s.readers.insert s.objects.length } := by
  have hm : s.mu = false := by
    cases hmu : s.mu with
    | false => rfl
    | true => simp [streamReader.Clone, hmu] at hc
  refine ⟨hm, ?_⟩
  rcases hr : s.objects[r]? with _ | h
  · simp [streamReader.Clone, hm, hr] at hc
  · simp only [streamReader.Clone, hm, hr] at hc
    injection hc with h1 h2
    exact ⟨h, rfl, h1.symm, by rw [← h2, hm]⟩

/-- What a returning `Close` did. -/
theorem Close_ret_inv {T : Type} (s s' : streamTracker T) (r : Nat)
    (hc : streamReader.Close s r = .ret () s') :
    s.mu = false ∧ r < s.objects.length ∧
      s' = { s with objects := s.objects.set r { items := [], closed := true },
                    readers := s.readers.filter fun k => k != r } := by
  have hm : s.mu = false := by
    cases hmu : s.mu with
    | false => rfl
    | true => simp [streamReader.Close, hmu] at hc
  refine ⟨hm, ?_⟩
  rcases hr : s.objects[r]? with _ | h
  · simp [streamReader.Close, hm, hr] at hc
  · simp only [streamReader.Close, hm, hr] at hc
    injection hc with _ h2
    exact ⟨lt_length_of_getElem? _ _ _ hr, by rw [← h2, hm]⟩

theorem retState_eq_some {σ ρ : Type} (o : Outcome σ ρ) (s' : σ)
    (h : o.retState = some s') : ∃ r, o = .ret r s' := by
  cases o with
  | ret r s => simp [Outcome.retState] at h; exact ⟨r, by rw [h]⟩
  | fault m s => simp [Outcome.retState] at h
  | blocked => simp [Outcome.retState] at h

/-- A returning call leaves the lock free and keeps every reader object a key of
`readers` exactly when it is not closed. -/
theorem callRet_keeps {T : Type} [Inhabited T] (s s' : streamTracker T) (c : StreamCall T)
    (hsub : Subscribed s) (hc : s.callRet c = some s') :
    s.mu = false ∧ s'.mu = false ∧ Subscribed s' := by
  cases c with
  | Send item err =>
    obtain ⟨u, hu⟩ := retState_eq_some _ _ hc
    cases u
    obtain ⟨hm, c, _, hcase⟩ := send_ret_inv s s' item err hu
    refine ⟨hm, ?_⟩
    rcases hcase with ⟨_, rfl⟩ | ⟨e, _, rfl⟩
    · refine ⟨hm, ?_⟩
      intro k h hk
      simp only [getElem?_appendAll] at hk
      rcases hr : s.objects[k]? with _ | h0
      · simp [hr] at hk
      · simp only [hr, Option.map_some', Option.some.injEq] at hk
        have := hsub k h0 hr
        subst hk
        by_cases hin : k ∈ s.readers <;> simpa [hin] using this
    · exact ⟨hm, hsub⟩
  | Pending r =>
    obtain ⟨u, hu⟩ := retState_eq_some _ _ hc
    obtain ⟨hm, rfl⟩ := Pending_ret_inv s s' r u hu
    exact ⟨hm, hm, hsub⟩
  | Next r =>
    obtain ⟨u, hu⟩ := retState_eq_some _ _ hc
    obtain ⟨hm, h, hr, hcase⟩ := Next_ret_inv s s' r u hu
    refine ⟨hm, ?_⟩
    rcases hcase with ⟨_, _, rfl⟩ | ⟨hcl, x, rest, _, _, rfl⟩ | ⟨_, _, _, _, rfl⟩
    · exact ⟨hm, hsub⟩
    · refine ⟨hm, ?_⟩
      intro k h' hk
      by_cases hkr : r = k
      · subst hkr
        have hlt := lt_length_of_getElem? _ _ _ hr
        simp only [List.getElem?_set, hlt, if_true, Option.some.injEq] at hk
        subst hk
        exact hsub r h hr
      · simp only [List.getElem?_set_ne hkr] at hk
        exact hsub k h' hk
    · exact ⟨hm, hsub⟩
  | Clone r =>
    obtain ⟨u, hu⟩ := retState_eq_some _ _ hc
    obtain ⟨hm, h, hr, _, rfl⟩ := Clone_ret_inv s s' r u hu
    refine ⟨hm, hm, ?_⟩
    intro k h' hk
    simp only [List.mem_insert_iff]
    by_cases hlt : k < s.objects.length
    · simp only [List.getElem?_append_left hlt] at hk
      have := hsub k h' hk
      constructor
      · rintro (heq | hin)
        · omega
        · exact this.mp hin
      · intro hcl
        exact Or.inr (this.mpr hcl)
    · have hge : s.objects.length ≤ k := Nat.le_of_not_lt hlt
      simp only [List.getElem?_append_right hge] at hk
      have hk0 : k - s.objects.length = 0 := by
        by_contra hne
        obtain ⟨m, hm'⟩ := Nat.exists_eq_succ_of_ne_zero hne
        rw [hm'] at hk
        simp at hk
      rw [hk0] at hk
      simp at hk
      subst hk
      simp
      omega
  | Close r =>
    obtain ⟨u, hu⟩ := retState_eq_some _ _ hc
    cases u
    obtain ⟨hm, hlt, rfl⟩ := Close_ret_inv s s' r hu
    refine ⟨hm, hm, ?_⟩
    intro k h' hk
    by_cases hkr : r = k
    · subst hkr
      simp only [List.getElem?_set, hlt, if_true, Option.some.injEq] at hk
      subst hk
      simp
    · simp only [List.getElem?_set_ne hkr] at hk
      have := hsub k h' hk
      simp only [List.mem_filter, bne_iff_ne, ne_eq]
      constructor
      · rintro ⟨hin, _⟩
        exact this.mp hin
      · intro hcl
        exact ⟨this.mpr hcl, fun h => hkr h.symm⟩

theorem callsRet_keeps {T : Type} [Inhabited T] (cs : List (StreamCall T))
    (s s' : streamTracker T) (hm : s.mu = false) (hsub : Subscribed s)
    (hc : s.callsRet cs = some s') : s'.mu = false ∧ Subscribed s' := by
  induction cs generalizing s with
  | nil =>
    simp only [streamTracker.callsRet, Option.some.injEq] at hc
    subst hc
    exact ⟨hm, hsub⟩
  | cons c cs ih =>
    simp only [streamTracker.callsRet] at hc
    rcases h1 : s.callRet c with _ | s1
    · simp [h1] at hc
    · simp only [h1, Option.some_bind] at hc
      obtain ⟨_, hm1, hsub1⟩ := callRet_keeps s s1 c hsub h1
      exact ih s1 hm1 hsub1 hc

theorem Subscribed_NewStream (T : Type) : Subscribed (NewStream T) := by
  intro k h hk
  rcases k with _ | k
  · simp [NewStream] at hk
    subst hk
    simp [NewStream]
  · simp [NewStream] at hk

/-- In a state reached from `NewStream` by returning calls the lock is free and the
subscribed readers are the open ones. -/
theorem Reachable.inv {T : Type} [Inhabited T] (s : streamTracker T) (hs : Reachable s) :
    s.mu = false ∧ Subscribed s := by
  obtain ⟨cs, hcs⟩ := hs
  exact callsRet_keeps cs (NewStream T) s rfl (Subscribed_NewStream T) hcs

theorem Reachable.step {T : Type} [Inhabited T] (s s' : streamTracker T) (c : StreamCall T)
    (hs : Reachable s) (hc : s.callRet c = some s') : Reachable s' := by
  obtain ⟨cs, hcs⟩ := hs
  refine ⟨cs ++ [c], ?_⟩
  have key : ∀ (l : List (StreamCall T)) (a : streamTracker T),
      a.callsRet l = some s → a.callsRet (l ++ [c]) = some s' := by
    intro l
    induction l with
    | nil =>
      intro a ha
      simp only [streamTracker.callsRet, Option.some.injEq] at ha
      subst ha
      simp [streamTracker.callsRet, hc]
    | cons b l ih =>
      intro a ha
      simp only [streamTracker.callsRet, List.cons_append] at ha ⊢
      rcases h1 : a.callRet b with _ | a1
      · simp [h1] at ha
      · simp only [h1, Option.some_bind] at ha ⊢
        exact ih a1 ha
  exact key cs _ hcs

theorem resultsFor_cons_self {ρ : Type} (r : Nat) (a : ρ) (out : List (Nat × ρ)) :
    resultsFor r ((r, a) :: out) = a :: resultsFor r out := by
  simp [resultsFor]

theorem resultsFor_cons_ne {ρ : Type} (r k : Nat) (a : ρ) (out : List (Nat × ρ))
    (hk : k ≠ r) : resultsFor r ((k, a) :: out) = resultsFor r out := by
  simp [resultsFor, hk]

theorem drop_cons_inv {β : Type} (H : List β) (n : Nat) (x : β) (rest : List β)
    (h : H.drop n = x :: rest) : n < H.length ∧ H[n]? = some x ∧ H.drop (n + 1) = rest := by
  have hlt : n < H.length := by
    by_contra hc
    rw [List.drop_of_length_le (Nat.le_of_not_lt hc)] at h
    cases h
  rw [List.drop_eq_getElem_cons hlt] at h
  injection h with h1 h2
  exact ⟨hlt, by rw [List.getElem?_eq_getElem hlt, h1], h2⟩

theorem expect_of_lt {T : Type} [Inhabited T] (H X : List T) (e e' : error) (n : Nat)
    (hlt : n < H.length) : expect (H ++ X) e' n = expect H e n := by
  simp [expect, List.getElem?_append_left hlt, List.getElem?_eq_getElem hlt]

theorem Tracks_send {T : Type} (s s1 : streamTracker T) (r : Nat) (H : List T) (n : Nat)
    (item : T) (err : error) (ht : Tracks s r H n) (hs : s.send item err = .ret () s1) :
    Tracks s1 r (H ++ sentItems [StreamCall.Send item err]) n ∧ s.pending ≠ none := by
  obtain ⟨hm, hin, hobj, hle⟩ := ht
  obtain ⟨_, c, hp, hcase⟩ := send_ret_inv s s1 item err hs
  have hpn : s.pending ≠ none := by rw [hp]; simp
  refine ⟨?_, hpn⟩
  rcases hcase with ⟨rfl, rfl⟩ | ⟨e, rfl, rfl⟩
  · refine ⟨hm, hin, ?_, ?_⟩
    · simp only [getElem?_appendAll, hobj, Option.map_some', hin, if_true, sentItems]
      rw [List.drop_append_of_le_length (hle hpn)]
    · intro _
      have := hle hpn
      simp [sentItems]
      omega
  · refine ⟨hm, hin, ?_, ?_⟩
    · simpa [sentItems] using hobj
    · intro hne
      exact absurd rfl hne

theorem Tracks_next_other {T : Type} [Inhabited T] (s s1 : streamTracker T) (r k : Nat)
    (H : List T) (n : Nat) (res : T × error) (ht : Tracks s r H n) (hk : k ≠ r)
    (hn : streamReader.Next s k = .ret res s1) :
    Tracks s1 r H n ∧ s1.err = s.err ∧ s1.pending = s.pending := by
  obtain ⟨hm, hin, hobj, hle⟩ := ht
  obtain ⟨h1, h2, h3, h4, _, h6⟩ := Next_frame s s1 k res hn
  refine ⟨⟨by rw [h1, hm], by rw [h2]; exact hin, ?_, ?_⟩, h3, h4⟩
  · rw [h6 r (Ne.symm hk)]
    exact hobj
  · rw [h4]
    exact hle

theorem Tracks_next_self {T : Type} [Inhabited T] (s s1 : streamTracker T) (r : Nat)
    (H : List T) (n : Nat) (res : T × error) (ht : Tracks s r H n)
    (hn : streamReader.Next s r = .ret res s1) :
    Tracks s1 r H (n + 1) ∧ s1.err = s.err ∧ s1.pending = s.pending ∧
    res = expect H s.err n ∧ (H.length ≤ n → s.pending = none) := by
  obtain ⟨hm, hin, hobj, hle⟩ := ht
  obtain ⟨_, h, hr, hcase⟩ := Next_ret_inv s s1 r res hn
  rw [hobj] at hr
  injection hr with hr
  subst hr
  rcases hcase with ⟨hcl, _, _⟩ | ⟨_, x, rest, hi, hres, rfl⟩ | ⟨_, hi, hp, hres, rfl⟩
  · cases hcl
  · simp only at hi
    obtain ⟨hlt, hx, hrest⟩ := drop_cons_inv H n x rest hi
    have hrl := lt_length_of_getElem? _ _ _ hobj
    refine ⟨⟨hm, hin, ?_, fun _ => hlt⟩, rfl, rfl, ?_, ?_⟩
    · simp [List.getElem?_set, hrl, hrest]
    · simp [expect, hx, hres]
    · intro hge
      omega
  · simp only at hi
    have hge : H.length ≤ n := List.drop_eq_nil_iff.mp hi
    refine ⟨⟨hm, hin, ?_, ?_⟩, rfl, rfl, ?_, fun _ => hp⟩
    · rw [hobj, List.drop_of_length_le hge, List.drop_of_length_le (by omega)]
    · intro hne
      exact absurd hp hne
    · simp [expect, List.getElem?_eq_none hge, hres]

theorem Tracks_clone {T : Type} (s s1 : streamTracker T) (r k c : Nat) (H : List T)
    (n : Nat) (ht : Tracks s r H n) (hc : streamReader.Clone s k = .ret c s1) :
    Tracks s1 r H n ∧ s1.err = s.err ∧ s1.pending = s.pending := by
  obtain ⟨hm, hin, hobj, hle⟩ := ht
  obtain ⟨_, h, _, _, rfl⟩ := Clone_ret_inv s s1 k c hc
  have hrl := lt_length_of_getElem? _ _ _ hobj
  refine ⟨⟨hm, ?_, ?_, hle⟩, rfl, rfl⟩
  · simp only [List.mem_insert_iff]
    exact Or.inr hin
  · simp only [List.getElem?_append_left hrl]
    exact hobj

theorem Tracks_close {T : Type} (s s1 : streamTracker T) (r k : Nat) (H : List T)
    (n : Nat) (ht : Tracks s r H n) (hk : k ≠ r)
    (hc : streamReader.Close s k = .ret () s1) :
    Tracks s1 r H n ∧ s1.err = s.err ∧ s1.pending = s.pending := by
  obtain ⟨hm, hin, hobj, hle⟩ := ht
  obtain ⟨_, _, rfl⟩ := Close_ret_inv s s1 k hc
  refine ⟨⟨hm, ?_, ?_, hle⟩, rfl, rfl⟩
  · simp only [List.mem_filter, bne_iff_ne, ne_eq]
    exact ⟨hin, fun h => hk h.symm⟩
  · simp only [List.getElem?_set_ne hk]
    exact hobj

theorem sentItems_cons {T : Type} (c : StreamCall T) (cs : List (StreamCall T)) :
    sentItems (c :: cs) = sentItems [c] ++ sentItems cs := by
  cases c with
  | Send item err => cases err <;> simp [sentItems]
  | Pending r => simp [sentItems]
  | Next r => simp [sentItems]
  | Clone r => simp [sentItems]
  | Close r => simp [sentItems]

/-- Along any run of returning calls that does not close reader `r`, the reader
stays open and subscribed, its queue is the unread rest of the item history, and
its `k`-th result is `expect` of the final history and terminal error. -/
theorem trace_tracks {T : Type} [Inhabited T] (r : Nat) (cs : List (StreamCall T)) :
    ∀ (s s' : streamTracker T) (H : List T) (n : Nat) (out : List (Nat × (T × error))),
      Tracks s r H n → StreamCall.Close r ∉ cs → s.trace cs = some (out, s') →
      Tracks s' r (H ++ sentItems cs) (n + (resultsFor r out).length) ∧
      (∀ k a, (resultsFor r out)[k]? = some a →
        a = expect (H ++ sentItems cs) s'.err (n + k)) ∧
      (s.pending = none → sentItems cs = [] ∧ s'.err = s.err ∧ s'.pending = none) := by
  induction cs with
  | nil =>
    intro s s' H n out ht _ htr
    simp only [streamTracker.trace, Option.some.injEq, Prod.mk.injEq] at htr
    obtain ⟨rfl, rfl⟩ := htr
    refine ⟨by simpa [sentItems, resultsFor] using ht, ?_, fun hp => ⟨rfl, rfl, hp⟩⟩
    intro k a hk
    simp [resultsFor] at hk
  | cons c cs ih =>
    intro s s' H n out ht hnc htr
    have hnc' : StreamCall.Close r ∉ cs := fun h => hnc (List.mem_cons_of_mem _ h)
    rw [sentItems_cons, ← List.append_assoc]
    cases c with
    | Next k =>
      simp only [streamTracker.trace] at htr
      rcases hn : streamReader.Next s k with ⟨res, s1⟩ | ⟨m, s1⟩ | _
      · simp only [hn, Option.map_eq_some', Prod.mk.injEq, Prod.exists] at htr
        obtain ⟨out1, s2, htr1, rfl, rfl⟩ := htr
        by_cases hk : k = r
        · subst hk
          obtain ⟨ht1, he1, hp1, hres, hge⟩ := Tracks_next_self s s1 k H n res ht hn
          obtain ⟨i1, i2, i3⟩ := ih s1 s2 H (n + 1) out1 ht1 hnc' htr1
          simp only [sentItems, List.append_nil, resultsFor_cons_self, List.length_cons]
          refine ⟨by rw [show n + ((resultsFor k out1).length + 1)
              = n + 1 + (resultsFor k out1).length by omega]; exact i1, ?_, ?_⟩
          · intro j a hj
            rcases j with _ | j
            · simp only [List.getElem?_cons_zero, Option.some.injEq] at hj
              subst hj
              rw [hres]
              by_cases hlt : n < H.length
              · exact (expect_of_lt H (sentItems cs) s.err s2.err n hlt).symm
              · have hpn := hge (Nat.le_of_not_lt hlt)
                obtain ⟨j1, j2, _⟩ := i3 (by rw [hp1]; exact hpn)
                rw [j1, j2, he1]
                simp
            · simp only [List.getElem?_cons_succ] at hj
              have := i2 j a hj
              rw [show n + (j + 1) = n + 1 + j by omega]
              exact this
          · intro hp
            obtain ⟨j1, j2, j3⟩ := i3 (by rw [hp1]; exact hp)
            exact ⟨j1, by rw [j2, he1], j3⟩
        · obtain ⟨ht1, he1, hp1⟩ := Tracks_next_other s s1 r k H n res ht hk hn
          obtain ⟨i1, i2, i3⟩ := ih s1 s2 H n out1 ht1 hnc' htr1
          simp only [sentItems, List.append_nil, resultsFor_cons_ne r k res out1 hk]
          refine ⟨i1, i2, ?_⟩
          intro hp
          obtain ⟨j1, j2, j3⟩ := i3 (by rw [hp1]; exact hp)
          exact ⟨j1, by rw [j2, he1], j3⟩
      · simp [hn] at htr
      · simp [hn] at htr
    | Send item err =>
      simp only [streamTracker.trace, streamTracker.callRet] at htr
      rcases h1 : (s.send item err).retState with _ | s1
      · simp [h1] at htr
      · simp only [h1, Option.some_bind] at htr
        obtain ⟨u, hu⟩ := retState_eq_some _ _ h1
        cases u
        obtain ⟨ht1, hpn⟩ := Tracks_send s s1 r H n item err ht hu
        obtain ⟨i1, i2, _⟩ := ih s1 s' _ n out ht1 hnc' htr
        exact ⟨i1, i2, fun hp => absurd hp hpn⟩
    | Pending k =>
      simp only [streamTracker.trace, streamTracker.callRet] at htr
      rcases h1 : (streamReader.Pending s k).retState with _ | s1
      · simp [h1] at htr
      · simp only [h1, Option.some_bind] at htr
        obtain ⟨u, hu⟩ := retState_eq_some _ _ h1
        obtain ⟨_, rfl⟩ := Pending_ret_inv s s1 k u hu
        simp only [sentItems, List.append_nil]
        exact ih s1 s' H n out ht hnc' htr
    | Clone k =>
      simp only [streamTracker.trace, streamTracker.callRet] at htr
      rcases h1 : (streamReader.Clone s k).retState with _ | s1
      · simp [h1] at htr
      · simp only [h1, Option.some_bind] at htr
        obtain ⟨u, hu⟩ := retState_eq_some _ _ h1
        obtain ⟨ht1, he1, hp1⟩ := Tracks_clone s s1 r k u H n ht hu
        obtain ⟨i1, i2, i3⟩ := ih s1 s' H n out ht1 hnc' htr
        simp only [sentItems, List.append_nil]
        refine ⟨i1, i2, ?_⟩
        intro hp
        obtain ⟨j1, j2, j3⟩ := i3 (by rw [hp1]; exact hp)
        exact ⟨j1, by rw [j2, he1], j3⟩
    | Close k =>
      have hk : k ≠ r := by
        intro h
        subst h
        exact hnc (List.mem_cons_self _ _)
      simp only [streamTracker.trace, streamTracker.callRet] at htr
      rcases h1 : (streamReader.Close s k).retState with _ | s1
      · simp [h1] at htr
      · simp only [h1, Option.some_bind] at htr
        obtain ⟨u, hu⟩ := retState_eq_some _ _ h1
        cases u
        obtain ⟨ht1, he1, hp1⟩ := Tracks_close s s1 r k H n ht hk hu
        obtain ⟨i1, i2, i3⟩ := ih s1 s' H n out ht1 hnc' htr
        simp only [sentItems, List.append_nil]
        refine ⟨i1, i2, ?_⟩
        intro hp
        obtain ⟨j1, j2, j3⟩ := i3 (by rw [hp1]; exact hp)
        exact ⟨j1, by rw [j2, he1], j3⟩

/-- A `Close` that returns leaves the reader closed. -/
theorem ClosedAt_of_Close {T : Type} (s s1 : streamTracker T) (R : Nat)
    (hc : streamReader.Close s R = .ret () s1) : ClosedAt s1 R := by
  obtain ⟨hm, hlt, rfl⟩ := Close_ret_inv s s1 R hc
  refine ⟨hm, ?_, ?_⟩
  · simp [List.mem_filter]
  · simp [List.getElem?_set, hlt]

/-- No returning call reopens a closed reader, refills its queue or subscribes it. -/
theorem ClosedAt_callRet {T : Type} [Inhabited T] (s s' : streamTracker T) (R : Nat)
    (c : StreamCall T) (hcl : ClosedAt s R) (hc : s.callRet c = some s') : ClosedAt s' R := by
  obtain ⟨hm, hnin, hobj⟩ := hcl
  have hlt := lt_length_of_getElem? _ _ _ hobj
  cases c with
  | Send item err =>
    obtain ⟨u, hu⟩ := retState_eq_some _ _ hc
    cases u
    obtain ⟨_, c, _, hcase⟩ := send_ret_inv s s' item err hu
    rcases hcase with ⟨_, rfl⟩ | ⟨e, _, rfl⟩
    · refine ⟨hm, hnin, ?_⟩
      simp [getElem?_appendAll, hobj, hnin]
    · exact ⟨hm, hnin, hobj⟩
  | Pending r =>
    obtain ⟨u, hu⟩ := retState_eq_some _ _ hc
    obtain ⟨_, rfl⟩ := Pending_ret_inv s s' r u hu
    exact ⟨hm, hnin, hobj⟩
  | Next r =>
    obtain ⟨u, hu⟩ := retState_eq_some _ _ hc
    obtain ⟨h1, h2, _, _, _, h6⟩ := Next_frame s s' r u hu
    obtain ⟨_, h, hr, hcase⟩ := Next_ret_inv s s' r u hu
    by_cases hrR : r = R
    · subst hrR
      rw [hobj] at hr
      injection hr with hr
      subst hr
      rcases hcase with ⟨_, _, rfl⟩ | ⟨hopen, _⟩ | ⟨hopen, _⟩
      · exact ⟨hm, hnin, hobj⟩
      · cases hopen
      · cases hopen
    · refine ⟨by rw [h1, hm], by rw [h2]; exact hnin, ?_⟩
      rw [h6 R (Ne.symm hrR)]
      exact hobj
  | Clone r =>
    obtain ⟨u, hu⟩ := retState_eq_some _ _ hc
    obtain ⟨_, h, _, _, rfl⟩ := Clone_ret_inv s s' r u hu
    refine ⟨hm, ?_, ?_⟩
    · simp only [List.mem_insert_iff, not_or]
      exact ⟨by omega, hnin⟩
    · simp only [List.getElem?_append_left hlt]
      exact hobj
  | Close r =>
    obtain ⟨u, hu⟩ := retState_eq_some _ _ hc
    cases u
    obtain ⟨_, hrl, rfl⟩ := Close_ret_inv s s' r hu
    refine ⟨hm, ?_, ?_⟩
    · simp only [List.mem_filter, not_and]
      intro hin
      exact absurd hin hnin
    · by_cases hrR : r = R
      · subst hrR
        simp [List.getElem?_set, hrl]
      · simp only [List.getElem?_set_ne hrR]
        exact hobj

theorem ClosedAt_callsRet {T : Type} [Inhabited T] (cs : List (StreamCall T))
    (s s' : streamTracker T) (R : Nat) (hcl : ClosedAt s R)
    (hc : s.callsRet cs = some s') : ClosedAt s' R := by
  induction cs generalizing s with
  | nil =>
    simp only [streamTracker.callsRet, Option.some.injEq] at hc
    subst hc
    exact hcl
  | cons c cs ih =>
    simp only [streamTracker.callsRet] at hc
    rcases h1 : s.callRet c with _ | s1
    · simp [h1] at hc
    · simp only [h1, Option.some_bind] at hc
      exact ih s1 (ClosedAt_callRet s s1 R c hcl h1) hc

/-- An item sent while the terminal slot is unset reaches every open subscribed
reader: it is appended to the queue and returned by the `Next` that follows the
items already queued. -/
theorem send_item_observed {T : Type} [Inhabited T] (s1 : streamTracker T) (r c : Nat)
    (q : List T) (x : T) (hm : s1.mu = false) (hp : s1.pending = some c)
    (hin : r ∈ s1.readers) (hobj : s1.objects[r]? = some { items := q, closed := false }) :
    ∃ s2 s3 s4 : streamTracker T,
      s1.send x none = .ret () s2 ∧
      s2.objects[r]? = some { items := q ++ [x], closed := false } ∧
      streamReader.nexts s2 r q.length = some (q.map fun y => (y, none), s3) ∧
      streamReader.Next s3 r = .ret (x, none) s4 := by
  have hlt := lt_length_of_getElem? _ _ _ hobj
  have hq : (appendAll s1.readers x s1.objects)[r]?
      = some { items := q ++ [x], closed := false } := by
    rw [getElem?_appendAll, hobj]
    simp only [Option.map_some', hin, if_true]
  have hlen : r < (appendAll s1.readers x s1.objects).length := by
    rw [length_appendAll]
    exact hlt
  have hdrain := nexts_of_queue q [x]
    ({ s1 with pending := some (c + 1),
               objects := appendAll s1.readers x s1.objects } : streamTracker T) r hm hq
  have hnext := Next_of_cons
    ({ s1 with pending := some (c + 1),
               objects := (appendAll s1.readers x s1.objects).set r
                  { items := [x], closed := false } } : streamTracker T)
    r { items := [x], closed := false } x [] hm (by simp [List.getElem?_set, hlen]) rfl rfl
  exact ⟨_, _, _, by simp [streamTracker.send, hm, hp], hq, hdrain, hnext⟩

/-- A terminal error sent while the terminal slot is unset reaches every open
reader: it is returned by the `Next` that follows the items already queued. -/
theorem send_err_observed {T : Type} [Inhabited T] (s1 : streamTracker T) (r c : Nat)
    (q : List T) (d : T) (E : GoError) (hm : s1.mu = false) (hp : s1.pending = some c)
    (hobj : s1.objects[r]? = some { items := q, closed := false }) :
    ∃ s2 s3 : streamTracker T,
      s1.send d (some E) = .ret () s2 ∧
      streamReader.nexts s2 r q.length = some (q.map fun y => (y, none), s3) ∧
      streamReader.Next s3 r = .ret (default, some E) s3 := by
  have hlt := lt_length_of_getElem? _ _ _ hobj
  have hq : s1.objects[r]? = some { items := q ++ [], closed := false } := by
    rw [List.append_nil]
    exact hobj
  have hdrain := nexts_of_queue q []
    ({ s1 with err := some E, pending := none } : streamTracker T) r hm hq
  have hnext := Next_of_terminal
    ({ s1 with err := some E, pending := none,
               objects := s1.objects.set r { items := [], closed := false } } : streamTracker T)
    r { items := [], closed := false } hm (by simp [List.getElem?_set, hlt]) rfl rfl rfl
  exact ⟨_, _, by simp [streamTracker.send, hm, hp], hdrain, hnext⟩

/-- With the lock free, `send` panics exactly when the terminal slot is set, and a
panicking `send` changes nothing but the lock, which it leaves held. -/
theorem send_faulted_of_free {T : Type} (s : streamTracker T) (item : T) (err : error)
    (hm : s.mu = false) :
    ((s.send item err).faulted = true ↔ s.pending = none) ∧
    ((s.send item err).faulted = true →
      (s.send item err).after s = { s with mu := true }) := by
  rcases hp : s.pending with _ | c <;> cases err <;>
    simp [streamTracker.send, hm, hp, Outcome.faulted, Outcome.after]

/-- Once the terminal slot is set, no `send` changes it or the stored error,
however the call ends. -/
theorem send_keeps_terminal {T : Type} (s : streamTracker T) (item : T) (err : error)
    (hp : s.pending = none) :
    ((s.send item err).after s).pending = none ∧
    ((s.send item err).after s).err = s.err := by
  cases hm : s.mu <;> cases err <;>
    simp [streamTracker.send, hm, hp, Outcome.after]

theorem Terminal_callRet {T : Type} [Inhabited T] (s s' : streamTracker T) (E : GoError)
    (c : StreamCall T) (ht : Terminal s E) (hc : s.callRet c = some s') : Terminal s' E := by
  obtain ⟨hm, hp, he⟩ := ht
  cases c with
  | Send item err =>
    obtain ⟨u, hu⟩ := retState_eq_some _ _ hc
    cases u
    obtain ⟨_, c, hpc, _⟩ := send_ret_inv s s' item err hu
    rw [hp] at hpc
    cases hpc
  | Pending r =>
    obtain ⟨u, hu⟩ := retState_eq_some _ _ hc
    obtain ⟨_, rfl⟩ := Pending_ret_inv s s' r u hu
    exact ⟨hm, hp, he⟩
  | Next r =>
    obtain ⟨u, hu⟩ := retState_eq_some _ _ hc
    obtain ⟨h1, _, h3, h4, _, _⟩ := Next_frame s s' r u hu
    exact ⟨by rw [h1, hm], by rw [h4, hp], by rw [h3, he]⟩
  | Clone r =>
    obtain ⟨u, hu⟩ := retState_eq_some _ _ hc
    obtain ⟨_, h, _, _, rfl⟩ := Clone_ret_inv s s' r u hu
    exact ⟨hm, hp, he⟩
  | Close r =>
    obtain ⟨u, hu⟩ := retState_eq_some _ _ hc
    cases u
    obtain ⟨_, _, rfl⟩ := Close_ret_inv s s' r hu
    exact ⟨hm, hp, he⟩

theorem Terminal_callsRet {T : Type} [Inhabited T] (cs : List (StreamCall T))
    (s s' : streamTracker T) (E : GoError) (ht : Terminal s E)
    (hc : s.callsRet cs = some s') : Terminal s' E := by
  induction cs generalizing s with
  | nil =>
    simp only [streamTracker.callsRet, Option.some.injEq] at hc
    subst hc
    exact ht
  | cons c cs ih =>
    simp only [streamTracker.callsRet] at hc
    rcases h1 : s.callRet c with _ | s1
    · simp [h1] at hc
    · simp only [h1, Option.some_bind] at hc
      exact ih s1 (Terminal_callRet s s1 E c ht h1) hc

/-- Any number of `Next` calls that each return `res` and leave the state as it is. -/
theorem nexts_of_fixed {T : Type} [Inhabited T] (s : streamTracker T) (r : Nat)
    (res : T × error) (hn : streamReader.Next s r = .ret res s) (n : Nat) :
    streamReader.nexts s r n = some (List.replicate n res, s) := by
  induction n with
  | zero => rfl
  | succ n ih => simp [streamReader.nexts, hn, ih, List.replicate_succ]

/-! ### Claims on the stream -/

/-- C3. Stream FIFO. For every list of items `xs` sent in order to a fresh stream
(one reader, no clone), every send returns; `xs.length` successive `Next` calls of
the reader return the items of `xs` in send order, each with a nil error; after
them `Pending` hands out the shared open channel and `Next` blocks.  If a terminal
error `E` is sent after `xs`, before or after the items are read, the items are
still returned first and in order, and the `Next` that follows them returns the
zero value and `E`.  The same holds when sends and `Next` calls alternate: along
every run of returning calls from `NewStream` that does not close the reader, its
`k`-th result is the `k`-th item sent with a nil error and, past the items sent,
the zero value with the terminal error. -/
theorem stream_fifo {T : Type} [Inhabited T] (xs : List T) (d : T) (E : GoError) :
    ∃ s1 s2 : streamTracker T,
      (NewStream T).callsRet (sendItems xs) = some s1 ∧
      streamReader.nexts s1 0 xs.length = some (xs.map fun x => (x, none), s2) ∧
      streamReader.Pending s2 0 = .ret (.shared xs.length) s2 ∧
      streamReader.Next s2 0 = .blocked ∧
      (∃ s3, s2.send d (some E) = .ret () s3 ∧
        streamReader.Next s3 0 = .ret (default, some E) s3) ∧
      (∃ s4 s5, s1.send d (some E) = .ret () s4 ∧
        streamReader.nexts s4 0 xs.length = some (xs.map fun x => (x, none), s5) ∧
        streamReader.Next s5 0 = .ret (default, some E) s5) ∧
      (∀ (cs : List (StreamCall T)) (out : List (Nat × (T × error))) (s' : streamTracker T),
        StreamCall.Close 0 ∉ cs → (NewStream T).trace cs = some (out, s') →
        ∀ k a, (resultsFor 0 out)[k]? = some a → a = expect (sentItems cs) s'.err k) := by
  refine ⟨{ mu := false, readers := [0], err := none, pending := some xs.length,
            objects := [{ items := xs, closed := false }] },
          { mu := false, readers := [0], err := none, pending := some xs.length,
            objects := [{ items := [], closed := false }] }, ?_, ?_, ?_, ?_, ?_, ?_, ?_⟩
  · rw [callsRet_sendItems xs (NewStream T) 0 rfl rfl]
    simp [NewStream, appendMany, List.mapIdx_cons]
  · have h := nexts_of_queue xs []
      ({ mu := false, readers := [0], err := none, pending := some xs.length,
         objects := [{ items := xs, closed := false }] } : streamTracker T) 0 rfl (by simp)
    simpa using h
  · exact Pending_of_waiting _ 0 { items := [], closed := false } xs.length rfl rfl rfl rfl rfl
  · exact Next_of_waiting _ 0 { items := [], closed := false } xs.length rfl rfl rfl rfl rfl
  · refine ⟨{ mu := false, readers := [0], err := some E, pending := none,
              objects := [{ items := [], closed := false }] }, rfl, ?_⟩
    exact Next_of_terminal _ 0 { items := [], closed := false } rfl rfl rfl rfl rfl
  · refine ⟨{ mu := false, readers := [0], err := some E, pending := none,
              objects := [{ items := xs, closed := false }] },
            { mu := false, readers := [0], err := some E, pending := none,
              objects := [{ items := [], closed := false }] }, rfl, ?_, ?_⟩
    · have h := nexts_of_queue xs []
        ({ mu := false, readers := [0], err := some E, pending := none,
           objects := [{ items := xs, closed := false }] } : streamTracker T) 0 rfl (by simp)
      simpa using h
    · exact Next_of_terminal _ 0 { items := [], closed := false } rfl rfl rfl rfl rfl
  · intro cs out s' hnc htr k a hk
    have ht : Tracks (NewStream T) 0 [] 0 :=
      ⟨rfl, by simp [NewStream], rfl, fun _ => Nat.le_refl _⟩
    obtain ⟨_, h2, _⟩ := trace_tracks 0 cs (NewStream T) s' [] 0 out ht hnc htr
    simpa using h2 k a hk

/-- C4. Broadcast fan-out. A clone (reader `1`) is taken from the reader of a fresh
stream (reader `0`) before any send; then `x` and the terminal error `E` are sent.
For every order of the four `Next` calls (two per reader), all four return, and
each reader gets `(x, nil)` first and the zero value with `E` second.  Moreover a
returning `Next` on one reader, in any state, leaves every other reader object as
it was. -/
theorem stream_fanout {T : Type} [Inhabited T] (x d : T) (E : GoError) (order : List Nat)
    (ho : order.Perm [0, 0, 1, 1]) :
    ∃ s1 s2 s3 : streamTracker T,
      streamReader.Clone (NewStream T) 0 = .ret 1 s1 ∧
      s1.send x none = .ret () s2 ∧
      s2.send d (some E) = .ret () s3 ∧
      (∃ out s4, streamReader.nextSeq s3 order = some (out, s4) ∧
        resultsFor 0 out = [(x, none), (default, some E)] ∧
        resultsFor 1 out = [(x, none), (default, some E)]) ∧
      (∀ (s s' : streamTracker T) (r k : Nat) (res : T × error),
        streamReader.Next s r = .ret res s' → k ≠ r → s'.objects[k]? = s.objects[k]?) := by
  refine ⟨{ mu := false, readers := [1, 0], err := none, pending := some 0,
            objects := [{ items := [], closed := false }, { items := [], closed := false }] },
          { mu := false, readers := [1, 0], err := none, pending := some 1,
            objects := [{ items := [x], closed := false }, { items := [x], closed := false }] },
          { mu := false, readers := [1, 0], err := some E, pending := none,
            objects := [{ items := [x], closed := false }, { items := [x], closed := false }] },
          rfl, rfl, rfl, ?_, ?_⟩
  · have hlen : order.length = 4 := ho.length_eq
    have hcount : order.count 0 = 2 := by rw [ho.count_eq]; rfl
    have hmem : ∀ a ∈ order, a = 0 ∨ a = 1 := by
      intro a ha
      have := ho.subset ha
      simpa using this
    rcases order with _ | ⟨a, _ | ⟨b, _ | ⟨c, _ | ⟨e, _ | ⟨f, t⟩⟩⟩⟩⟩ <;>
      simp at hlen
    have ha := hmem a (by simp)
    have hb := hmem b (by simp)
    have hc := hmem c (by simp)
    have he := hmem e (by simp)
    rcases ha with rfl | rfl <;> rcases hb with rfl | rfl <;>
      rcases hc with rfl | rfl <;> rcases he with rfl | rfl <;>
      first
      | (exfalso; revert hcount; decide)
      | exact ⟨_, _, rfl, rfl, rfl⟩
  · intro s s' r k res hn hk
    exact (Next_frame s s' r res hn).2.2.2.2.2 k hk

/-- C4 at a concrete input: item `7`, error `New 1`, the calls alternating between
the two readers. -/
theorem stream_fanout_witness :
    ∃ s1 s2 s3 : streamTracker Nat,
      streamReader.Clone (NewStream Nat) 0 = .ret 1 s1 ∧
      s1.send 7 none = .ret () s2 ∧
      s2.send 0 (some (.New 1)) = .ret () s3 ∧
      (∃ out s4, streamReader.nextSeq s3 [0, 1, 0, 1] = some (out, s4) ∧
        resultsFor 0 out = [(7, none), (default, some (.New 1))] ∧
        resultsFor 1 out = [(7, none), (default, some (.New 1))]) ∧
      (∀ (s s' : streamTracker Nat) (r k : Nat) (res : Nat × error),
        streamReader.Next s r = .ret res s' → k ≠ r → s'.objects[k]? = s.objects[k]?) :=
  stream_fanout 7 0 (.New 1) [0, 1, 0, 1] (by decide)

/-- C5. Fork point. In a state reached from `NewStream`, `Clone` on an open reader
`r` returns a new reader `c` whose queue is the queue of `r` at that instant, that
is open and subscribed; `r`, every other reader and the tracker are unchanged.
After that, along every run of returning calls that closes neither of the two
(sends of items and of the terminal error, `Next` calls on the two readers in any
interleaving, calls on other readers), the `k`-th result of `c` and the `k`-th
result of `r` are both `expect` of the queue at the clone point followed by the
items sent since, so they are equal whenever both exist. -/
theorem clone_fork_point {T : Type} [Inhabited T] (s : streamTracker T) (r : Nat)
    (h : streamReader T) (hs : Reachable s) (hr : s.objects[r]? = some h)
    (ho : h.closed = false) :
    ∃ s' : streamTracker T,
      streamReader.Clone s r = .ret s.objects.length s' ∧
      s'.objects[s.objects.length]? = some { items := h.items, closed := false } ∧
      s.objects.length ∈ s'.readers ∧
      s'.objects[r]? = some h ∧ r ∈ s'.readers ∧
      (∀ k, k < s.objects.length → s'.objects[k]? = s.objects[k]?) ∧
      s'.err = s.err ∧ s'.pending = s.pending ∧ s'.mu = s.mu ∧
      ∀ (cs : List (StreamCall T)) (out : List (Nat × (T × error))) (s'' : streamTracker T),
        StreamCall.Close r ∉ cs → StreamCall.Close s.objects.length ∉ cs →
        s'.trace cs = some (out, s'') →
        (∀ k a, (resultsFor r out)[k]? = some a →
          a = expect (h.items ++ sentItems cs) s''.err k) ∧
        (∀ k a, (resultsFor s.objects.length out)[k]? = some a →
          a = expect (h.items ++ sentItems cs) s''.err k) ∧
        (∀ (k : Nat) a b, (resultsFor r out)[k]? = some a →
          (resultsFor s.objects.length out)[k]? = some b → a = b) := by
  obtain ⟨hm, hsub⟩ := Reachable.inv s hs
  have hrl := lt_length_of_getElem? _ _ _ hr
  have hin : r ∈ s.readers := (hsub r h hr).mpr ho
  refine ⟨{ s with objects := s.objects ++ [{ items := h.items, closed := false }],
                   readers := s.readers.insert s.objects.length }, ?_, ?_, ?_, ?_, ?_, ?_,
          rfl, rfl, rfl, ?_⟩
  · simp [streamReader.Clone, hm, hr]
  · simp
  · simp [List.mem_insert_iff]
  · simp only [List.getElem?_append_left hrl]
    exact hr
  · simp only [List.mem_insert_iff]
    exact Or.inr hin
  · intro k hk
    simp only [List.getElem?_append_left hk]
  · intro cs out s'' hcr hcc htr
    have htr_r : Tracks
        ({ s with
            objects := s.objects ++ [{ items := h.items, closed := false }],
            readers := s.readers.insert s.objects.length } : streamTracker T) r h.items 0 := by
      refine ⟨hm, ?_, ?_, fun _ => Nat.zero_le _⟩
      · simp only [List.mem_insert_iff]
        exact Or.inr hin
      · simp only [List.getElem?_append_left hrl, List.drop_zero]
        rw [hr, ← ho]
    have htr_c : Tracks
        ({ s with
            objects := s.objects ++ [{ items := h.items, closed := false }],
            readers := s.readers.insert s.objects.length } : streamTracker T)
        s.objects.length h.items 0 := by
      refine ⟨hm, ?_, ?_, fun _ => Nat.zero_le _⟩
      · simp [List.mem_insert_iff]
      · simp
    obtain ⟨_, hR, _⟩ := trace_tracks r cs _ s'' h.items 0 out htr_r hcr htr
    obtain ⟨_, hC, _⟩ := trace_tracks s.objects.length cs _ s'' h.items 0 out htr_c hcc htr
    have hR' : ∀ k a, (resultsFor r out)[k]? = some a →
        a = expect (h.items ++ sentItems cs) s''.err k := by
      intro k a hk
      simpa using hR k a hk
    have hC' : ∀ k a, (resultsFor s.objects.length out)[k]? = some a →
        a = expect (h.items ++ sentItems cs) s''.err k := by
      intro k a hk
      simpa using hC k a hk
    exact ⟨hR', hC', fun k a b ha hb => (hR' k a ha).trans (hC' k b hb).symm⟩

/-- C5 at a concrete input: the reader has read `1` and still holds `2`; its clone
holds `2` only, and after `3` is sent and both readers read in turn they got the
same results. -/
theorem clone_fork_point_witness :
    Reachable forkDemo ∧
    ∃ s' : streamTracker Nat,
      streamReader.Clone forkDemo 0 = .ret 1 s' ∧
      s'.objects[1]? = some { items := [2], closed := false } ∧
      ∀ (out : List (Nat × (Nat × error))) (s'' : streamTracker Nat),
        s'.trace [.Send 3 none, .Next 1, .Next 0, .Next 0, .Next 1] = some (out, s'') →
        ∀ (k : Nat) a b,
          (resultsFor 0 out)[k]? = some a → (resultsFor 1 out)[k]? = some b → a = b :=
  have hreach : Reachable forkDemo := ⟨[.Send 1 none, .Send 2 none, .Next 0], rfl⟩
  ⟨hreach,
    let ⟨s', h1, h2, _, _, _, _, _, _, _, h10⟩ :=
      clone_fork_point forkDemo 0 { items := [2], closed := false } hreach rfl rfl
    ⟨s', h1, h2, fun out s'' htr =>
      (h10 [.Send 3 none, .Next 1, .Next 0, .Next 0, .Next 1] out s''
        (by decide) (by decide) htr).2.2⟩⟩

/-- Closed readers along returning calls. Let `Close` return on reader `R` in any state (items
buffered or not, terminal error sent or not), and let any sequence of returning
calls follow (sends of items or of the terminal error, `Next`, `Clone`, `Close` and
`Pending` on any reader, `R` included).  Then `R` is still closed with an empty
queue, `Pending` on `R` hands out a closed channel, and `Next` on `R` returns the
zero value with `ErrStreamClosed` and changes nothing. -/
theorem closed_reader_stays_closed {T : Type} [Inhabited T] (s s1 s2 : streamTracker T)
    (R : Nat) (cs : List (StreamCall T))
    (hc : streamReader.Close s R = .ret () s1) (hrun : s1.callsRet cs = some s2) :
    s2.objects[R]? = some { items := [], closed := true } ∧
    R ∉ s2.readers ∧
    streamReader.Pending s2 R = .ret .ready s2 ∧
    streamReader.Next s2 R = .ret (default, some .ErrStreamClosed) s2 := by
  obtain ⟨hm, hnin, hobj⟩ := ClosedAt_callsRet cs s1 s2 R (ClosedAt_of_Close s s1 R hc) hrun
  exact ⟨hobj, hnin, Pending_of_ready s2 R _ hm hobj (Or.inl rfl),
    Next_of_closed s2 R _ hm hobj rfl⟩

/-- Closed readers at a concrete input: the reader is closed while it holds the item `5`; then
an item and the terminal error are sent, the closed reader is cloned, read and
closed again. -/
theorem closed_reader_stays_closed_witness :
    ∃ s1 s2 : streamTracker Nat,
      streamReader.Close itemDemo 0 = .ret () s1 ∧
      s1.callsRet [.Send 6 none, .Clone 0, .Next 0, .Send 0 (some (.New 1)), .Close 0]
        = some s2 ∧
      streamReader.Pending s2 0 = .ret .ready s2 ∧
      streamReader.Next s2 0 = .ret (default, some .ErrStreamClosed) s2 :=
  ⟨{ mu := false, readers := [], err := none, pending := some 1,
     objects := [{ items := [], closed := true }] },
   { mu := false, readers := [1], err := some (.New 1), pending := none,
     objects := [{ items := [], closed := true }, { items := [], closed := false }] },
   rfl, rfl,
   (closed_reader_stays_closed itemDemo _ _ 0
      [.Send 6 none, .Clone 0, .Next 0, .Send 0 (some (.New 1)), .Close 0] rfl rfl).2.2⟩

/-- C7. Close isolation. In a state reached from `NewStream`, with `R` and `R2` two
distinct readers and `R2` open, `Close` on `R` returns and changes only `R`: `R`
becomes closed with an empty queue and leaves `readers`; every other reader object,
the membership of every other reader in `readers`, the terminal error, the
`pending` channel and the lock are unchanged.  If the terminal slot is unset, an
item sent afterwards is appended to the queue of `R2` and returned by the `Next`
of `R2` that follows the items it already held, and a terminal error sent
afterwards is returned by the `Next` of `R2` that follows those items. -/
theorem close_isolation {T : Type} [Inhabited T] (s : streamTracker T) (R R2 : Nat)
    (h2 : streamReader T) (hs : Reachable s) (hne : R ≠ R2) (hR : R < s.objects.length)
    (hR2 : s.objects[R2]? = some h2) (ho : h2.closed = false) :
    ∃ s1 : streamTracker T,
      streamReader.Close s R = .ret () s1 ∧
      s1.objects[R]? = some { items := [], closed := true } ∧ R ∉ s1.readers ∧
      s1.objects[R2]? = some h2 ∧
      (∀ k, k ≠ R → s1.objects[k]? = s.objects[k]?) ∧
      (∀ k, k ≠ R → (k ∈ s1.readers ↔ k ∈ s.readers)) ∧
      s1.err = s.err ∧ s1.pending = s.pending ∧ s1.mu = s.mu ∧
      (∀ (x : T) (c : Nat), s.pending = some c →
        ∃ s2 s3 s4 : streamTracker T,
          s1.send x none = .ret () s2 ∧
          s2.objects[R2]? = some { items := h2.items ++ [x], closed := false } ∧
          streamReader.nexts s2 R2 h2.items.length
            = some (h2.items.map fun y => (y, none), s3) ∧
          streamReader.Next s3 R2 = .ret (x, none) s4) ∧
      (∀ (d : T) (E : GoError) (c : Nat), s.pending = some c →
        ∃ s2 s3 : streamTracker T,
          s1.send d (some E) = .ret () s2 ∧
          streamReader.nexts s2 R2 h2.items.length
            = some (h2.items.map fun y => (y, none), s3) ∧
          streamReader.Next s3 R2 = .ret (default, some E) s3) := by
  obtain ⟨hm, hsub⟩ := Reachable.inv s hs
  have hin2 : R2 ∈ s.readers := (hsub R2 h2 hR2).mpr ho
  have hl2 := lt_length_of_getElem? _ _ _ hR2
  obtain ⟨hR0, hR0eq⟩ : ∃ h0, s.objects[R]? = some h0 :=
    ⟨s.objects[R], List.getElem?_eq_getElem hR⟩
  have hfilter : R2 ∈ s.readers.filter fun k => k != R := by
    simp only [List.mem_filter, bne_iff_ne, ne_eq]
    exact ⟨hin2, fun h => hne h.symm⟩
  have hobj2 : (s.objects.set R { items := [], closed := true })[R2]? = some h2 := by
    rw [List.getElem?_set_ne hne]
    exact hR2
  have hh2 : h2 = { items := h2.items, closed := false } := by
    cases h2
    simp_all
  refine ⟨{ s with objects := s.objects.set R { items := [], closed := true },
                   readers := s.readers.filter fun k => k != R },
    ?_, ?_, ?_, hobj2, ?_, ?_, rfl, rfl, rfl, ?_, ?_⟩
  · simp [streamReader.Close, hm, hR0eq]
  · simp [List.getElem?_set, hR]
  · simp [List.mem_filter]
  · intro k hk
    simp only [List.getElem?_set_ne (Ne.symm hk)]
  · intro k hk
    simp only [List.mem_filter, bne_iff_ne, ne_eq]
    exact ⟨fun h => h.1, fun h => ⟨h, hk⟩⟩
  · intro x c hp
    exact send_item_observed
      ({ s with objects := s.objects.set R { items := [], closed := true },
                readers := s.readers.filter fun k => k != R } : streamTracker T)
      R2 c h2.items x hm hp hfilter (by rw [hobj2]; exact congrArg some hh2)
  · intro d E c hp
    exact send_err_observed
      ({ s with objects := s.objects.set R { items := [], closed := true },
                readers := s.readers.filter fun k => k != R } : streamTracker T)
      R2 c h2.items d E hm hp (by rw [hobj2]; exact congrArg some hh2)

/-- C7 at a concrete input: of two readers that both hold `5`, reader `0` is closed;
reader `1` keeps its item and still receives `9`. -/
theorem close_isolation_witness :
    Reachable pairDemo ∧
    ∃ s1 s2 s3 s4 : streamTracker Nat,
      streamReader.Close pairDemo 0 = .ret () s1 ∧
      s1.objects[1]? = some { items := [5], closed := false } ∧
      s1.send 9 none = .ret () s2 ∧
      streamReader.nexts s2 1 1 = some ([(5, none)], s3) ∧
      streamReader.Next s3 1 = .ret (9, none) s4 :=
  have hreach : Reachable pairDemo := ⟨[.Clone 0, .Send 5 none], rfl⟩
  ⟨hreach,
    let ⟨s1, h1, _, _, h4, _, _, _, _, _, h10, _⟩ :=
      close_isolation pairDemo 0 1 { items := [5], closed := false } hreach
        (by decide) (by decide) rfl rfl
    let ⟨s2, s3, s4, k1, _, k3, k4⟩ := h10 9 1 rfl
    ⟨s1, s2, s3, s4, h1, h4, k1, k3, k4⟩⟩

/-- C8 (failing input). On a fresh stream the first terminal error is stored; a
second terminal error panics with "multiple errors sent to stream", changes
neither the terminal slot nor the stored error, and leaves the lock held; after
the panic is recovered, a `send` of an item and a `send` of a third terminal error
do not panic although the terminal slot is set: both block in `s.Lock()`. -/
theorem send_after_recovered_fault_blocks {T : Type} (x d d' d'' : T) (E E' E'' : GoError) :
    ∃ s1 s2 : streamTracker T,
      (NewStream T).send d (some E) = .ret () s1 ∧
      s1.pending = none ∧ s1.err = some E ∧
      s1.send d' (some E') = .fault "multiple errors sent to stream" s2 ∧
      s2.pending = none ∧ s2.err = some E ∧ s2.mu = true ∧
      s2.send x none = .blocked ∧ (s2.send x none).faulted = false ∧
      s2.send d'' (some E'') = .blocked ∧ (s2.send d'' (some E'')).faulted = false :=
  ⟨{ mu := false, readers := [0], err := some E, pending := none,
     objects := [{ items := [], closed := false }] },
   { mu := true, readers := [0], err := some E, pending := none,
     objects := [{ items := [], closed := false }] },
   rfl, rfl, rfl, rfl, rfl, rfl, rfl, rfl, rfl, rfl, rfl⟩

/-- Terminal error replay along returning calls. Let a `send` of the terminal error `E` return, and
let any sequence of returning calls follow.  Then on every open reader whose queue
is empty, `Next` returns the zero value with `E` and leaves the whole state as it
is, so any number of repeated `Next` calls all return `E`; a clone of such a
reader, taken then, also gets `E` from `Next`, and so does the reader after the
clone was taken. -/
theorem terminal_error_replay {T : Type} [Inhabited T] (s0 s1 s2 : streamTracker T)
    (d : T) (E : GoError) (cs : List (StreamCall T)) (r : Nat) (h : streamReader T)
    (hsend : s0.send d (some E) = .ret () s1) (hrun : s1.callsRet cs = some s2)
    (hr : s2.objects[r]? = some h) (ho : h.closed = false) (hi : h.items = []) :
    streamReader.Next s2 r = .ret (default, some E) s2 ∧
    (∀ n, streamReader.nexts s2 r n = some (List.replicate n (default, some E), s2)) ∧
    ∃ s3 : streamTracker T,
      streamReader.Clone s2 r = .ret s2.objects.length s3 ∧
      streamReader.Next s3 s2.objects.length = .ret (default, some E) s3 ∧
      (∀ n, streamReader.nexts s3 s2.objects.length n
        = some (List.replicate n (default, some E), s3)) ∧
      streamReader.Next s3 r = .ret (default, some E) s3 := by
  have ht1 : Terminal s1 E := by
    obtain ⟨hm, c, _, hcase⟩ := send_ret_inv s0 s1 d (some E) hsend
    rcases hcase with ⟨hnone, _⟩ | ⟨e, he, rfl⟩
    · cases hnone
    · injection he with he
      subst he
      exact ⟨hm, rfl, rfl⟩
  obtain ⟨hm, hp, he⟩ := Terminal_callsRet cs s1 s2 E ht1 hrun
  have hrl := lt_length_of_getElem? _ _ _ hr
  have hnext : streamReader.Next s2 r = .ret (default, some E) s2 := by
    rw [Next_of_terminal s2 r h hm hr ho hi hp, he]
  refine ⟨hnext, nexts_of_fixed s2 r _ hnext, ?_⟩
  obtain ⟨s3, hs3⟩ : ∃ s3 : streamTracker T, s3 =
      { s2 with objects := s2.objects ++ [{ items := h.items, closed := false }],
                readers := s2.readers.insert s2.objects.length } := ⟨_, rfl⟩
  have hm3 : s3.mu = false := by rw [hs3]; exact hm
  have hp3 : s3.pending = none := by rw [hs3]; exact hp
  have he3 : s3.err = some E := by rw [hs3]; exact he
  have ho3 : s3.objects[s2.objects.length]? = some { items := h.items, closed := false } := by
    rw [hs3]
    simp
  have hr3 : s3.objects[r]? = some h := by
    rw [hs3]
    simp [List.getElem?_append_left hrl, hr]
  have hc1 : streamReader.Next s3 s2.objects.length = .ret (default, some E) s3 := by
    rw [Next_of_terminal s3 s2.objects.length _ hm3 ho3 rfl hi hp3, he3]
  have hc2 : streamReader.Next s3 r = .ret (default, some E) s3 := by
    rw [Next_of_terminal s3 r h hm3 hr3 ho hi hp3, he3]
  refine ⟨s3, ?_, hc1, nexts_of_fixed _ _ _ hc1, hc2⟩
  rw [hs3]
  simp [streamReader.Clone, hm, hr]

/-- Terminal error replay at a concrete input: the error `New 1` is sent to a fresh stream, the reader
reads it once and is then cloned. -/
theorem terminal_error_replay_witness :
    ∃ s1 s2 s3 : streamTracker Nat,
      (NewStream Nat).send 0 (some (.New 1)) = .ret () s1 ∧
      s1.callsRet [.Next 0] = some s2 ∧
      streamReader.Next s2 0 = .ret (default, some (.New 1)) s2 ∧
      streamReader.Clone s2 0 = .ret 1 s3 ∧
      streamReader.Next s3 1 = .ret (default, some (.New 1)) s3 :=
  let s1 : streamTracker Nat :=
    { mu := false, readers := [0], err := some (.New 1), pending := none,
      objects := [{ items := [], closed := false }] }
  have hw := terminal_error_replay (NewStream Nat) s1 s1 0 (.New 1) [.Next 0] 0
    { items := [], closed := false } rfl rfl rfl rfl rfl
  let ⟨s3, k1, k2, _⟩ := hw.2.2
  ⟨s1, s1, s3, rfl, rfl, hw.1, k1, k2⟩

/-! ### Claims on the abort context -/

/-- C10. Abort multiplicity. Take a context fresh from `NewAbort()` or from
`WithAbort(p)`, any steps `pre` (abort calls with any errors, changes of the
parent), an `abort(e1)`, and any steps `post`.  Every step returns; up to and
including `abort(e1)` the function `completeFunc` has been invoked exactly once and
the context is done; a further `abort(e2)` returns and changes nothing; the steps
`post` invoke `completeFunc` no more, and `Err()` after them is `Err()` as it was
right after `abort(e1)`. -/
theorem abort_multiplicity {α : Type} (parent : Option Context) (pre post : List AbortCall)
    (e1 e2 : error) :
    ∃ a1 a3 : abortContext α,
      (freshAbort α parent).run (pre ++ [.Abort e1]) = some (1, a1) ∧
      a1.Done = true ∧
      a1.abort e2 = .ret () a1 ∧
      a1.run post = some (0, a3) ∧
      a3.Done = true ∧ a3.Err = a1.Err ∧
      (freshAbort α parent).run (pre ++ [.Abort e1] ++ post) = some (1, a3) := by
  have hfresh : (freshAbort α parent).once = false ∧
      (freshAbort α parent).future = NewFuture α := by
    cases parent <;> exact ⟨rfl, rfl⟩
  obtain ⟨n, a', hpre, hcase⟩ := run_of_fresh pre (freshAbort α parent) hfresh.1 hfresh.2
  have hstep : ∃ m a1, a'.run [.Abort e1] = some (m, a1) ∧ n + m = 1 ∧
      a1.once = true ∧ a1.future.done = true := by
    rcases hcase with ⟨rfl, ho, hf⟩ | ⟨rfl, ho, hd⟩
    · refine ⟨1, { a' with once := true,
                           future := { mu := false, done := true, val := none,
                                       err := a'.reason e1 } }, ?_, rfl, rfl, rfl⟩
      simp [abortContext.run, abortContext.step, abortContext.abort, ho, hf, NewFuture,
        future.complete, abortContext.completeCalls]
    · refine ⟨0, a', ?_, rfl, ho, hd⟩
      simp [abortContext.run, abortContext.step, abortContext.abort, ho,
        abortContext.completeCalls]
  obtain ⟨m, a1, hrun1, hnm, ho1, hd1⟩ := hstep
  obtain ⟨a3, hpost, _, hf3⟩ := run_of_once post a1 ho1
  have h1 := run_append pre [.Abort e1] _ a' a1 n m hpre hrun1
  rw [hnm] at h1
  refine ⟨a1, a3, h1, hd1, ?_, hpost, ?_, ?_, ?_⟩
  · simp [abortContext.abort, ho1]
  · simp [abortContext.Done, future.Done, hf3, hd1]
  · simp [abortContext.Err, hf3]
  · have h2 := run_append (pre ++ [.Abort e1]) post _ a1 a3 1 0 h1 hpost
    simpa using h2

/-- Steps that only change the parent leave a context fresh from `WithAbort` as if it
had been built over the last parent state. -/
theorem run_parents {α : Type} (ps : List Context) (p0 : Context) :
    (WithAbort α p0).run (ps.map AbortCall.Parent) = some (0, WithAbort α (ps.getLastD p0)) := by
  induction ps generalizing p0 with
  | nil => rfl
  | cons p ps ih =>
    have h := ih p
    simp only [List.map_cons, abortContext.run, abortContext.step, WithAbort, Option.map_some',
      abortContext.completeCalls] at h ⊢
    rw [h]
    cases ps <;> simp [List.getLastD]

/-- C11. Abort error attribution. A context built by `WithAbort` whose parent has
since been observed in the states `ps`, the last being `p`, and that has not been
aborted, is as if built over `p`.  Its first `abort(e)` returns and leaves it done;
if `p` is done, `Err()` is then the error of `p`, whatever `e` is; if `p` is not
done, `Err()` is `e`.  A context from `NewAbort` completes with `e`. -/
theorem abort_attribution {α : Type} (p0 p : Context) (ps : List Context) (e : error) :
    (WithAbort α p0).run ((ps ++ [p]).map AbortCall.Parent) = some (0, WithAbort α p) ∧
    (∃ a1 : abortContext α, (WithAbort α p).abort e = .ret () a1 ∧ a1.Done = true ∧
      a1.Err = (if p.done then p.err else e) ∧
      (p.done = true → a1.Err = p.err) ∧ (p.done = false → a1.Err = e)) ∧
    (∃ a1 : abortContext α, (NewAbort α).abort e = .ret () a1 ∧ a1.Done = true ∧
      a1.Err = e) := by
  refine ⟨?_, ?_, ?_⟩
  · rw [run_parents]
    cases ps <;> simp [List.getLastD]
  · refine ⟨{ inner := some p, once := true,
              future := { mu := false, done := true, val := none,
                          err := if p.done then p.err else e } }, ?_, rfl, ?_, ?_, ?_⟩
    · simp [abortContext.abort, WithAbort, NewFuture, future.complete, abortContext.reason]
    · simp [abortContext.Err, future.Done, future.Result]
    · intro hd
      simp [abortContext.Err, future.Done, future.Result, hd]
    · intro hd
      simp [abortContext.Err, future.Done, future.Result, hd]
  · exact ⟨{ inner := none, once := true,
             future := { mu := false, done := true, val := none, err := e } }, rfl, rfl, rfl⟩

/-- C12. Done and Err of an abort context. `Done` is ready exactly when the channel of
the underlying future is closed.  On a context fresh from `NewAbort()` or
`WithAbort(p)`, `Done` is not ready and `Err()` is nil.  On a context from
`NewAbort()`, the first `abort(e)` returns, after which `Done` is ready and `Err()`
is `e`, for every `e`, nil included. -/
theorem abort_done_err {α : Type} (parent : Option Context) (e : error) :
    (∀ a : abortContext α, a.Done = true ↔ a.future.done = true) ∧
    (freshAbort α parent).Done = false ∧ (freshAbort α parent).Err = none ∧
    (∃ a1 : abortContext α, (NewAbort α).abort e = .ret () a1 ∧ a1.Done = true ∧
      a1.Err = e) ∧
    (∃ a1 : abortContext α, (NewAbort α).abort none = .ret () a1 ∧ a1.Done = true ∧
      a1.Err = none) := by
  refine ⟨fun a => Iff.rfl, ?_, ?_, ?_, ?_⟩
  · cases parent <;> rfl
  · cases parent <;> rfl
  · exact ⟨{ inner := none, once := true,
             future := { mu := false, done := true, val := none, err := e } }, rfl, rfl, rfl⟩
  · exact ⟨{ inner := none, once := true,
             future := { mu := false, done := true, val := none, err := none } }, rfl, rfl, rfl⟩

/-- C17. Delegation. On a context built by `WithAbort(p)`, `Deadline()` and
`Value(key)` return what `p` returns; on a context built by `NewAbort()` they return
the zero time with `false`, and nil.  An `abort` call, however it ends and whatever
its error, changes neither answer, on any context. -/
theorem abort_delegation {α : Type} (p : Context) (key : Nat) :
    (WithAbort α p).Deadline = p.deadline ∧
    (WithAbort α p).Value key = p.value key ∧
    (NewAbort α).Deadline = (0, false) ∧
    (NewAbort α).Value key = none ∧
    (∀ (a : abortContext α) (e : error),
      ((a.abort e).after a).Deadline = a.Deadline ∧
      ((a.abort e).after a).Value key = a.Value key) := by
  refine ⟨rfl, rfl, rfl, rfl, ?_⟩
  intro a e
  unfold abortContext.abort
  cases ho : a.once with
  | true => simp [Outcome.after]
  | false =>
    simp only [Bool.false_eq_true, if_false]
    cases a.future.complete none (a.reason e) <;>
      simp [Outcome.after, abortContext.Deadline, abortContext.Value]

/-- C18 (counterexample). A context is built over a live parent and aborted first,
with the error `New 3`; then the parent is cancelled; then the `select` of the
goroutine runs. Both channels are closed, so the `select` may choose
`case <-ctx.Done()`, and the goroutine then calls `abort` with the error of the
parent: it does not exit without calling `abort`. -/
theorem watcher_may_call_abort_after_abort :
    ∃ a : abortContext Nat,
      (WithAbort Nat liveDemo).run [.Abort (some (.New 3)), .Parent cancelledDemo]
        = some (1, a) ∧
      a.Done = true ∧ a.Err = some (.New 3) ∧
      a.watcherSelect cancelledDemo .parentDone = some .parentDone ∧
      a.watcher .parentDone = a.abort cancelledDemo.err :=
  ⟨{ inner := some cancelledDemo, once := true,
     future := { mu := false, done := true, val := none, err := some (.New 3) } },
   rfl, rfl, rfl, rfl, rfl⟩

/-- C18 (amended). Take a context built by `WithAbort`, after any steps that
returned, its parent being observed as `ctx` when the `select` of the goroutine
runs.  If `ctx` is done and the context is not, the goroutine takes
`case <-ctx.Done()` and calls `abort` with the error of `ctx`; the call returns, the
context is done and `Err()` is the error of `ctx`.  If the context is done and
`ctx` is not, the goroutine takes the empty case and exits, calling nothing.  If
both are done, it takes either case, and exits having changed nothing.  If neither
is done, it waits. -/
theorem watcher_forwarding {α : Type} (p0 ctx : Context) (cs : List AbortCall) (n : Nat)
    (a : abortContext α) (pick : WatcherCase)
    (hrun : (WithAbort α p0).run cs = some (n, a)) (hctx : a.inner = some ctx) :
    (ctx.done = true → a.Done = false →
      a.watcherSelect ctx pick = some .parentDone ∧
      a.watcher pick = a.abort ctx.err ∧
      ∃ a1, a.watcher pick = .ret () a1 ∧ a1.Done = true ∧ a1.Err = ctx.err) ∧
    (ctx.done = false → a.Done = true →
      a.watcherSelect ctx pick = some .selfDone ∧ a.watcher pick = .ret () a) ∧
    (ctx.done = true → a.Done = true →
      a.watcherSelect ctx pick = some pick ∧ a.watcher pick = .ret () a) ∧
    (ctx.done = false → a.Done = false → a.watcher pick = .blocked) := by
  obtain ⟨n', a', hrun', hcase⟩ := run_of_fresh cs (WithAbort α p0) rfl rfl
  rw [hrun] at hrun'
  simp only [Option.some.injEq, Prod.mk.injEq] at hrun'
  obtain ⟨_, rfl⟩ := hrun'
  refine ⟨?_, ?_, ?_, ?_⟩
  · intro hd ha
    rcases hcase with ⟨_, ho, hf⟩ | ⟨_, ho, hfd⟩
    · refine ⟨by simp [abortContext.watcherSelect, hd, ha], ?_, ?_⟩
      · simp [abortContext.watcher, hctx, abortContext.watcherSelect, hd, ha]
      · refine ⟨{ a with once := true,
                         future := { mu := false, done := true, val := none,
                                     err := ctx.err } }, ?_, rfl, ?_⟩
        · simp [abortContext.watcher, hctx, abortContext.watcherSelect, hd, ha,
            abortContext.abort, ho, hf, NewFuture, future.complete, abortContext.reason]
        · simp [abortContext.Err, future.Done, future.Result]
    · simp [abortContext.Done, future.Done, hfd] at ha
  · intro hd ha
    refine ⟨by simp [abortContext.watcherSelect, hd, ha], ?_⟩
    simp [abortContext.watcher, hctx, abortContext.watcherSelect, hd, ha]
  · intro hd ha
    refine ⟨by simp [abortContext.watcherSelect, hd, ha], ?_⟩
    rcases hcase with ⟨_, ho, hf⟩ | ⟨_, ho, hfd⟩
    · simp [abortContext.Done, future.Done, hf, NewFuture] at ha
    · cases pick <;>
        simp [abortContext.watcher, hctx, abortContext.watcherSelect, hd, ha,
          abortContext.abort, ho]
  · intro hd ha
    simp [abortContext.watcher, hctx, abortContext.watcherSelect, hd, ha]

/-- C18 (amended) at a concrete input: a context built over a live parent that is
then cancelled; the goroutine forwards the error `New 7` of the parent. -/
theorem watcher_forwarding_witness :
    (WithAbort Nat liveDemo).run [.Parent cancelledDemo] = some (0, WithAbort Nat cancelledDemo) ∧
    (WithAbort Nat cancelledDemo).watcherSelect cancelledDemo .selfDone = some .parentDone ∧
    ∃ a1, (WithAbort Nat cancelledDemo).watcher .selfDone = .ret () a1 ∧
      a1.Done = true ∧ a1.Err = some (.New 7) :=
  have h := watcher_forwarding liveDemo cancelledDemo [.Parent cancelledDemo] 0
    (WithAbort Nat cancelledDemo) .selfDone rfl rfl
  ⟨rfl, (h.1 rfl rfl).1, (h.1 rfl rfl).2.2⟩

/-! ### Further claims on the stream -/

/-- Pending readiness with the lock free. With the lock free, on every reader object and every
tracker state: `Pending` hands out a closed channel exactly when the reader is
closed, or its queue is not empty, or `pending` is nil; in every other state it
hands out the channel stored in `pending`, which is open; and it leaves the state
as it found it.  Whatever the state, a `Pending` call changes nothing. -/
theorem pending_readiness {T : Type} (s : streamTracker T) (r : Nat) (h : streamReader T)
    (hm : s.mu = false) (hr : s.objects[r]? = some h) :
    (streamReader.Pending s r = .ret .ready s ↔
      (h.closed = true ∨ h.items ≠ [] ∨ s.pending = none)) ∧
    (¬ (h.closed = true ∨ h.items ≠ [] ∨ s.pending = none) →
      ∃ c, s.pending = some c ∧ streamReader.Pending s r = .ret (.shared c) s) ∧
    (∀ (s0 : streamTracker T) (k : Nat), (streamReader.Pending s0 k).after s0 = s0) := by
  refine ⟨⟨?_, Pending_of_ready s r h hm hr⟩, ?_, ?_⟩
  · intro hp
    by_contra hn
    simp only [not_or, Bool.not_eq_true, ne_eq, not_not] at hn
    obtain ⟨hc, hi, hpn⟩ := hn
    obtain ⟨c, hc'⟩ := Option.ne_none_iff_exists'.mp hpn
    rw [Pending_of_waiting s r h c hm hr hc hi hc'] at hp
    cases hp
  · intro hn
    simp only [not_or, Bool.not_eq_true, ne_eq, not_not] at hn
    obtain ⟨hc, hi, hpn⟩ := hn
    obtain ⟨c, hc'⟩ := Option.ne_none_iff_exists'.mp hpn
    exact ⟨c, hc', Pending_of_waiting s r h c hm hr hc hi hc'⟩
  · intro s0 k
    unfold streamReader.Pending
    cases s0.mu
    · simp only [Bool.false_eq_true, if_false]
      cases s0.objects[k]? with
      | none => rfl
      | some h0 =>
        cases s0.pending with
        | none => rfl
        | some c =>
          simp only
          split <;> rfl
    · rfl

/-- Pending readiness at a concrete input: the reader of `itemDemo` holds an item, so its
`Pending` is ready. -/
theorem pending_readiness_witness :
    streamReader.Pending itemDemo 0 = .ret .ready itemDemo :=
  (pending_readiness itemDemo 0 { items := [5], closed := false } rfl rfl).1.mpr
    (Or.inr (Or.inl (by decide)))

/-- C16. Close idempotence. In a state reached from `NewStream`, `Close` on a reader
`R` returns and leaves `R` closed, with an empty queue and out of `readers`; a second
`Close` on `R` returns too and leaves exactly the state the first one left. -/
theorem close_idempotent {T : Type} [Inhabited T] (s : streamTracker T) (R : Nat)
    (hs : Reachable s) (hR : R < s.objects.length) :
    ∃ s1 : streamTracker T,
      streamReader.Close s R = .ret () s1 ∧
      s1.objects[R]? = some { items := [], closed := true } ∧
      R ∉ s1.readers ∧
      streamReader.Close s1 R = .ret () s1 := by
  obtain ⟨hm, _⟩ := Reachable.inv s hs
  have hR0 : s.objects[R]? = some s.objects[R] := List.getElem?_eq_getElem hR
  refine ⟨{ s with objects := s.objects.set R { items := [], closed := true },
                   readers := s.readers.filter fun k => k != R }, ?_, ?_, ?_, ?_⟩
  · simp [streamReader.Close, hm, hR0]
  · simp [List.getElem?_set, hR]
  · simp [List.mem_filter]
  · simp [streamReader.Close, hm, List.getElem?_set, hR, List.set_set, List.filter_filter]

/-- C16 at a concrete input: reader `0` of `pairDemo` is closed twice. -/
theorem close_idempotent_witness :
    Reachable pairDemo ∧
    ∃ s1 : streamTracker Nat,
      streamReader.Close pairDemo 0 = .ret () s1 ∧ streamReader.Close s1 0 = .ret () s1 :=
  have hreach : Reachable pairDemo := ⟨[.Clone 0, .Send 5 none], rfl⟩
  ⟨hreach,
    let ⟨s1, h1, _, _, h4⟩ := close_idempotent pairDemo 0 hreach (by decide)
    ⟨s1, h1, h4⟩⟩

/-- C20. `Next` does not reach its consistency panic when called alone.  In any
state, if `Pending` on a reader hands out a closed channel, then `Next` in that state
returns: `ErrStreamClosed`, or the front item, or the terminal error; the locked
part of `Next` is what returns, so it does not panic.  In any state the locked part
takes the branch "pending closed but no items or error set" exactly when `Pending`
hands out the shared open channel, and in that case `Next` waits on that channel and
never gets to the locked part; so `Next` never ends in that panic. -/
theorem next_never_inconsistent {T : Type} [Inhabited T] (s s' : streamTracker T) (r : Nat)
    (hp : streamReader.Pending s r = .ret .ready s') :
    (∃ (res : T × error) (s'' : streamTracker T) (h : streamReader T),
      streamReader.Next s r = .ret res s'' ∧
      streamReader.nextLocked s r = .ret res s'' ∧
      s.objects[r]? = some h ∧
      (res = (default, some .ErrStreamClosed) ∨
       (∃ x rest, h.items = x :: rest ∧ res = (x, none)) ∨
       res = (default, s.err))) ∧
    (∀ (s0 : streamTracker T) (k : Nat),
      (streamReader.nextLocked s0 k = .fault "pending closed but no items or error set" s0 ↔
        ∃ c, streamReader.Pending s0 k = .ret (.shared c) s0) ∧
      ((∃ c, streamReader.Pending s0 k = .ret (.shared c) s0) →
        streamReader.Next s0 k = .blocked) ∧
      (∀ t, streamReader.Next s0 k ≠ .fault "pending closed but no items or error set" t)) := by
  constructor
  · have hnl : streamReader.Next s r = streamReader.nextLocked s r := by
      simp [streamReader.Next, hp]
    obtain ⟨hm, _⟩ := Pending_ret_inv s s' r .ready hp
    rcases hr : s.objects[r]? with _ | h
    · simp [streamReader.Pending, hm, hr] at hp
    · rcases Bool.eq_false_or_eq_true h.closed with hc | hc
      · refine ⟨_, s, h, ?_, ?_, rfl, Or.inl rfl⟩
        · exact Next_of_closed s r h hm hr hc
        · rw [← hnl]; exact Next_of_closed s r h hm hr hc
      · rcases hi : h.items with _ | ⟨x, rest⟩
        · rcases hpe : s.pending with _ | c
          · refine ⟨_, s, h, ?_, ?_, rfl, Or.inr (Or.inr rfl)⟩
            · exact Next_of_terminal s r h hm hr hc hi hpe
            · rw [← hnl]; exact Next_of_terminal s r h hm hr hc hi hpe
          · rw [Pending_of_waiting s r h c hm hr hc hi hpe] at hp
            cases hp
        · refine ⟨(x, none), { s with objects := s.objects.set r { h with items := rest } },
            h, ?_, ?_, rfl, Or.inr (Or.inl ⟨x, rest, hi, rfl⟩)⟩
          · exact Next_of_cons s r h x rest hm hr hc hi
          · rw [← hnl]; exact Next_of_cons s r h x rest hm hr hc hi
  · intro s0 k
    rcases hm : s0.mu with _ | _
    · rcases hr : s0.objects[k]? with _ | h
      · refine ⟨?_, ?_, ?_⟩
        · simp [streamReader.nextLocked, streamReader.Pending, hm, hr]
        · simp [streamReader.Pending, hm, hr]
        · simp [streamReader.Next, streamReader.Pending, hm, hr]
      · rcases Bool.eq_false_or_eq_true h.closed with hc | hc
        · refine ⟨?_, ?_, ?_⟩
          · simp [streamReader.nextLocked, streamReader.Pending, hm, hr, hc]
            cases s0.pending <;> simp
          · rw [Pending_of_ready s0 k h hm hr (Or.inl hc)]
            simp
          · rw [Next_of_closed s0 k h hm hr hc]
            simp
        · rcases hi : h.items with _ | ⟨x, rest⟩
          · rcases hpe : s0.pending with _ | c
            · refine ⟨?_, ?_, ?_⟩
              · simp [streamReader.nextLocked, streamReader.Pending, hm, hr, hc, hi, hpe]
              · rw [Pending_of_ready s0 k h hm hr (Or.inr (Or.inr hpe))]
                simp
              · rw [Next_of_terminal s0 k h hm hr hc hi hpe]
                simp
            · refine ⟨?_, ?_, ?_⟩
              · simp [streamReader.nextLocked, streamReader.Pending, hm, hr, hc, hi, hpe]
              · intro _
                exact Next_of_waiting s0 k h c hm hr hc hi hpe
              · rw [Next_of_waiting s0 k h c hm hr hc hi hpe]
                simp
          · refine ⟨?_, ?_, ?_⟩
            · simp [streamReader.nextLocked, streamReader.Pending, hm, hr, hc, hi]
              cases s0.pending <;> simp
            · rw [Pending_of_ready s0 k h hm hr (Or.inr (Or.inl (by simp [hi])))]
              simp
            · rw [Next_of_cons s0 k h x rest hm hr hc hi]
              simp
    · refine ⟨?_, ?_, ?_⟩
      · simp [streamReader.nextLocked, streamReader.Pending, hm]
      · simp [streamReader.Pending, hm]
      · simp [streamReader.Next, streamReader.Pending, hm]

/-- C20 at a concrete input: the reader of `itemDemo` is ready and `Next` returns its
item. -/
theorem next_never_inconsistent_witness :
    streamReader.Pending itemDemo 0 = .ret .ready itemDemo ∧
    ∃ (res : Nat × error) (s'' : streamTracker Nat),
      streamReader.Next itemDemo 0 = .ret res s'' ∧ res = (5, none) :=
  ⟨rfl,
    let ⟨res, s'', _, h1, _, _, _⟩ := (next_never_inconsistent itemDemo itemDemo 0 rfl).1
    ⟨res, s'', h1, by
      have h2 : streamReader.Next itemDemo 0 = .ret (5, none)
          { itemDemo with objects := [{ items := [], closed := false }] } := rfl
      rw [h2] at h1
      injection h1 with h3 _
      exact h3.symm⟩⟩

/-! ### The untyped stream against the generic one, call by call -/

theorem toGeneric_appendAll {α : Type} (readers : List Nat) (item : Option α)
    (objects : List (Untyped.streamReader α)) :
    (Untyped.appendAll readers item objects).map readerToGeneric =
      appendAll readers item (objects.map readerToGeneric) := by
  apply List.ext_getElem?
  intro i
  simp only [List.getElem?_map, Untyped.appendAll, appendAll, List.getElem?_mapIdx]
  cases objects[i]? with
  | none => rfl
  | some h => by_cases hi : i ∈ readers <;> simp [hi, readerToGeneric]

/-- Unless both arguments are non-nil, `send` does the same on both streams. -/
theorem send_untyped_generic {α : Type} (u : Untyped.streamTracker α) (item : Option α)
    (err : error) (hb : ¬ (item.isSome = true ∧ err.isSome = true)) :
    (u.send item err).mapState toGeneric = (toGeneric u).send item err := by
  have hb' : (item.isSome && err.isSome) = false := by
    cases item <;> cases err <;> simp_all
  unfold Untyped.streamTracker.send streamTracker.send
  simp only [hb', Bool.false_eq_true, if_false]
  cases hm : u.mu with
  | true => simp [toGeneric, hm, Outcome.mapState]
  | false =>
    cases err with
    | none =>
      cases hp : u.pending <;>
        simp [toGeneric, hm, hp, Outcome.mapState, toGeneric_appendAll]
    | some e =>
      cases hp : u.pending <;> simp [toGeneric, hm, hp, Outcome.mapState]

/-- `Pending` does the same on both streams. -/
theorem Pending_untyped_generic {α : Type} (u : Untyped.streamTracker α) (r : Nat) :
    (Untyped.streamReader.Pending u r).mapState toGeneric =
      streamReader.Pending (toGeneric u) r := by
  unfold Untyped.streamReader.Pending streamReader.Pending
  cases hm : u.mu with
  | true => simp [toGeneric, hm, Outcome.mapState]
  | false =>
    cases hr : u.objects[r]? with
    | none => simp [toGeneric, hm, hr, Outcome.mapState]
    | some h =>
      cases hp : u.pending with
      | none => simp [toGeneric, hm, hr, hp, Outcome.mapState]
      | some c =>
        by_cases hq : (h.closed || decide (0 < h.items.length)) = true
        · simp only [Bool.or_eq_true, decide_eq_true_eq] at hq
          simp [toGeneric, hm, hr, hp, hq, Outcome.mapState, readerToGeneric]
        · simp only [Bool.or_eq_true, decide_eq_true_eq] at hq
          simp [toGeneric, hm, hr, hp, hq, Outcome.mapState, readerToGeneric]

/-- `Next` does the same on both streams. -/
theorem Next_untyped_generic {α : Type} (u : Untyped.streamTracker α) (r : Nat) :
    (Untyped.streamReader.Next u r).mapState toGeneric =
      streamReader.Next (toGeneric u) r := by
  have hP := Pending_untyped_generic u r
  have hL : (Untyped.streamReader.nextLocked u r).mapState toGeneric =
      streamReader.nextLocked (toGeneric u) r := by
    unfold Untyped.streamReader.nextLocked streamReader.nextLocked
    cases hm : u.mu with
    | true => simp [toGeneric, hm, Outcome.mapState]
    | false =>
      cases hr : u.objects[r]? with
      | none => simp [toGeneric, hm, hr, Outcome.mapState]
      | some h =>
        cases hc : h.closed with
        | true =>
          simp [toGeneric, hm, hr, hc, Outcome.mapState, readerToGeneric]
          rfl
        | false =>
          cases hi : h.items with
          | cons x rest =>
            simp [toGeneric, hm, hr, hc, hi, Outcome.mapState,
              readerToGeneric, List.map_set]
          | nil =>
            cases hp : u.pending with
            | none =>
              simp [toGeneric, hm, hr, hc, hi, hp, Outcome.mapState,
                readerToGeneric]
              rfl
            | some c =>
              simp [toGeneric, hm, hr, hc, hi, hp, Outcome.mapState,
                readerToGeneric]
  unfold Untyped.streamReader.Next streamReader.Next
  rw [← hP, ← hL]
  cases Untyped.streamReader.Pending u r with
  | ret sig s' => cases sig <;> simp [Outcome.mapState]
  | fault m s' => simp [Outcome.mapState]
  | blocked => simp [Outcome.mapState]

/-- On a reader that is not closed, `Clone` does the same on both streams. -/
theorem Clone_untyped_generic {α : Type} (u : Untyped.streamTracker α) (r : Nat)
    (ho : ∀ h, u.objects[r]? = some h → h.closed = false) :
    (Untyped.streamReader.Clone u r).mapState toGeneric =
      streamReader.Clone (toGeneric u) r := by
  unfold Untyped.streamReader.Clone streamReader.Clone
  cases hm : u.mu with
  | true => simp [toGeneric, hm, Outcome.mapState]
  | false =>
    cases hr : u.objects[r]? with
    | none => simp [toGeneric, hm, hr, Outcome.mapState]
    | some h =>
      have hc := ho h hr
      simp [toGeneric, hm, hr, hc, Outcome.mapState, readerToGeneric]

/-- `Close` does the same on both streams. -/
theorem Close_untyped_generic {α : Type} (u : Untyped.streamTracker α) (r : Nat) :
    (Untyped.streamReader.Close u r).mapState toGeneric =
      streamReader.Close (toGeneric u) r := by
  unfold Untyped.streamReader.Close streamReader.Close
  cases hm : u.mu with
  | true => simp [toGeneric, hm, Outcome.mapState]
  | false =>
    cases hr : u.objects[r]? with
    | none => simp [toGeneric, hm, hr, Outcome.mapState]
    | some h =>
      simp [toGeneric, hm, hr, Outcome.mapState, readerToGeneric, List.map_set]

/-! ### Claims on the untyped stream -/

/-- C14 (failing input). On the untyped stream: the reader of a fresh stream is
closed, then cloned, then `x` is sent.  The clone (reader `1`) took the `closed`
flag of the original; it is subscribed and `x` is appended to its queue, but its
`Pending` is ready because it is closed and its `Next` returns nil with
`ErrStreamClosed`, not `x`.  The original returns nil with `ErrStreamClosed`. -/
theorem untyped_clone_after_close {α : Type} (x : Option α) :
    ∃ u1 u2 u3 : Untyped.streamTracker α,
      Untyped.streamReader.Close (Untyped.NewStream α) 0 = .ret () u1 ∧
      Untyped.streamReader.Clone u1 0 = .ret 1 u2 ∧
      u2.objects[1]? = some { items := [], closed := true } ∧ 1 ∈ u2.readers ∧
      u2.send x none = .ret () u3 ∧
      u3.objects[1]? = some { items := [x], closed := true } ∧
      Untyped.streamReader.Next u3 0 = .ret (none, some .ErrStreamClosed) u3 ∧
      Untyped.streamReader.Next u3 1 = .ret (none, some .ErrStreamClosed) u3 :=
  ⟨{ mu := false, readers := [], err := none, pending := some 0,
     objects := [{ items := [], closed := true }] },
   { mu := false, readers := [1], err := none, pending := some 0,
     objects := [{ items := [], closed := true }, { items := [], closed := true }] },
   { mu := false, readers := [1], err := none, pending := some 1,
     objects := [{ items := [], closed := true }, { items := [x], closed := true }] },
   rfl, rfl, rfl, by simp, by cases x <;> rfl, rfl, rfl, rfl⟩

/-- C15. Send of both forms on the untyped stream. In every state, the lock held
or not, the terminal slot set or not, `send` with a non-nil item and a non-nil
error panics with "cannot send both item and error" and leaves the whole state as
it found it: no queue, no flag, not the terminal slot, not the stored error, not
the lock. -/
theorem untyped_send_both_faults {α : Type} (s : Untyped.streamTracker α) (x : α)
    (E : GoError) :
    s.send (some x) (some E) = .fault "cannot send both item and error" s ∧
    (s.send (some x) (some E)).faulted = true ∧
    (s.send (some x) (some E)).after s = s :=
  ⟨rfl, rfl, rfl⟩

/-- C19 (failing input). The same calls on the untyped stream and on the generic
stream at the item type `interface{}`: the reader of a fresh stream is closed, then
cloned, then `x` is sent.  No call panics on either.  On the untyped stream the
clone is closed: its `Pending` is ready before the send and its `Next` returns nil
with `ErrStreamClosed`.  On the generic stream the clone is open: its `Pending` is
the shared open channel before the send and its `Next` returns `x` with a nil
error. -/
theorem untyped_generic_diverge {α : Type} (x : Option α) :
    ∃ (u1 u2 u3 : Untyped.streamTracker α) (g1 g2 g3 g4 : streamTracker (Option α)),
      Untyped.streamReader.Close (Untyped.NewStream α) 0 = .ret () u1 ∧
      Untyped.streamReader.Clone u1 0 = .ret 1 u2 ∧
      Untyped.streamReader.Pending u2 1 = .ret .ready u2 ∧
      u2.send x none = .ret () u3 ∧
      Untyped.streamReader.Next u3 1 = .ret (none, some .ErrStreamClosed) u3 ∧
      streamReader.Close (NewStream (Option α)) 0 = .ret () g1 ∧
      streamReader.Clone g1 0 = .ret 1 g2 ∧
      streamReader.Pending g2 1 = .ret (.shared 0) g2 ∧
      g2.send x none = .ret () g3 ∧
      streamReader.Next g3 1 = .ret (x, none) g4 :=
  ⟨{ mu := false, readers := [], err := none, pending := some 0,
     objects := [{ items := [], closed := true }] },
   { mu := false, readers := [1], err := none, pending := some 0,
     objects := [{ items := [], closed := true }, { items := [], closed := true }] },
   { mu := false, readers := [1], err := none, pending := some 1,
     objects := [{ items := [], closed := true }, { items := [x], closed := true }] },
   { mu := false, readers := [], err := none, pending := some 0,
     objects := [{ items := [], closed := true }] },
   { mu := false, readers := [1], err := none, pending := some 0,
     objects := [{ items := [], closed := true }, { items := [], closed := false }] },
   { mu := false, readers := [1], err := none, pending := some 1,
     objects := [{ items := [], closed := true }, { items := [x], closed := false }] },
   { mu := false, readers := [1], err := none, pending := some 1,
     objects := [{ items := [], closed := true }, { items := [], closed := false }] },
   rfl, rfl, rfl, by cases x <;> rfl, rfl, rfl, rfl, rfl, rfl, rfl⟩

/-! ### Invariants of the stream -/

/-- A returning call keeps every closed reader with an empty queue, given that the
subscribed readers are the open ones. -/
theorem ClosedEmpty_callRet {T : Type} [Inhabited T] (s s' : streamTracker T)
    (c : StreamCall T) (hsub : Subscribed s) (hce : ClosedEmpty s)
    (hc : s.callRet c = some s') : ClosedEmpty s' := by
  cases c with
  | Send item err =>
    obtain ⟨u, hu⟩ := retState_eq_some _ _ hc
    cases u
    obtain ⟨_, c, _, hcase⟩ := send_ret_inv s s' item err hu
    rcases hcase with ⟨_, rfl⟩ | ⟨e, _, rfl⟩
    · intro k h hk hcl
      simp only [getElem?_appendAll] at hk
      rcases hr : s.objects[k]? with _ | h0
      · simp [hr] at hk
      · simp only [hr, Option.map_some', Option.some.injEq] at hk
        by_cases hin : k ∈ s.readers
        · have hopen := (hsub k h0 hr).mp hin
          simp only [hin, if_true] at hk
          subst hk
          simp only at hcl
          rw [hopen] at hcl
          cases hcl
        · simp only [hin, if_false] at hk
          subst hk
          exact hce k h0 hr hcl
    · exact hce
  | Pending r =>
    obtain ⟨u, hu⟩ := retState_eq_some _ _ hc
    obtain ⟨_, rfl⟩ := Pending_ret_inv s s' r u hu
    exact hce
  | Next r =>
    obtain ⟨u, hu⟩ := retState_eq_some _ _ hc
    obtain ⟨_, h, hr, hcase⟩ := Next_ret_inv s s' r u hu
    rcases hcase with ⟨_, _, rfl⟩ | ⟨hopen, x, rest, _, _, rfl⟩ | ⟨_, _, _, _, rfl⟩
    · exact hce
    · intro k h' hk hcl
      by_cases hkr : r = k
      · subst hkr
        have hlt := lt_length_of_getElem? _ _ _ hr
        simp only [List.getElem?_set, hlt, if_true, Option.some.injEq] at hk
        subst hk
        simp only at hcl
        rw [hopen] at hcl
        cases hcl
      · simp only [List.getElem?_set_ne hkr] at hk
        exact hce k h' hk hcl
    · exact hce
  | Clone r =>
    obtain ⟨u, hu⟩ := retState_eq_some _ _ hc
    obtain ⟨_, h, hr, _, rfl⟩ := Clone_ret_inv s s' r u hu
    intro k h' hk hcl
    by_cases hlt : k < s.objects.length
    · simp only [List.getElem?_append_left hlt] at hk
      exact hce k h' hk hcl
    · have hge : s.objects.length ≤ k := Nat.le_of_not_lt hlt
      simp only [List.getElem?_append_right hge] at hk
      rcases hk0 : k - s.objects.length with _ | m
      · rw [hk0] at hk
        simp only [List.getElem?_cons_zero, Option.some.injEq] at hk
        subst hk
        cases hcl
      · rw [hk0] at hk
        simp at hk
  | Close r =>
    obtain ⟨u, hu⟩ := retState_eq_some _ _ hc
    cases u
    obtain ⟨_, hlt, rfl⟩ := Close_ret_inv s s' r hu
    intro k h' hk hcl
    by_cases hkr : r = k
    · subst hkr
      simp only [List.getElem?_set, hlt, if_true, Option.some.injEq] at hk
      subst hk
      rfl
    · simp only [List.getElem?_set_ne hkr] at hk
      exact hce k h' hk hcl

/-- A returning call keeps the terminal slot and the stored error in agreement. -/
theorem SlotAgrees_callRet {T : Type} [Inhabited T] (s s' : streamTracker T)
    (c : StreamCall T) (hsa : SlotAgrees s) (hc : s.callRet c = some s') : SlotAgrees s' := by
  cases c with
  | Send item err =>
    obtain ⟨u, hu⟩ := retState_eq_some _ _ hc
    cases u
    obtain ⟨_, c, hp, hcase⟩ := send_ret_inv s s' item err hu
    rcases hcase with ⟨_, rfl⟩ | ⟨e, _, rfl⟩
    · have hne : ¬ s.err ≠ none := fun h => by
        have := hsa.mpr h
        rw [hp] at this
        cases this
      simp only [SlotAgrees]
      constructor
      · intro h
        cases h
      · intro h
        exact absurd h hne
    · simp [SlotAgrees]
  | Pending r =>
    obtain ⟨u, hu⟩ := retState_eq_some _ _ hc
    obtain ⟨_, rfl⟩ := Pending_ret_inv s s' r u hu
    exact hsa
  | Next r =>
    obtain ⟨u, hu⟩ := retState_eq_some _ _ hc
    obtain ⟨_, _, h3, h4, _, _⟩ := Next_frame s s' r u hu
    simp only [SlotAgrees, h3, h4]
    exact hsa
  | Clone r =>
    obtain ⟨u, hu⟩ := retState_eq_some _ _ hc
    obtain ⟨_, h, _, _, rfl⟩ := Clone_ret_inv s s' r u hu
    exact hsa
  | Close r =>
    obtain ⟨u, hu⟩ := retState_eq_some _ _ hc
    cases u
    obtain ⟨_, _, rfl⟩ := Close_ret_inv s s' r hu
    exact hsa

/-- A returning call puts into the queues nothing but items that were queued before
or that it sends. -/
theorem QueuedFrom_callRet {T : Type} [Inhabited T] (s s' : streamTracker T) (L : List T)
    (c : StreamCall T) (hq : QueuedFrom s L) (hc : s.callRet c = some s') :
    QueuedFrom s' (L ++ sentItems [c]) := by
  cases c with
  | Send item err =>
    obtain ⟨u, hu⟩ := retState_eq_some _ _ hc
    cases u
    obtain ⟨_, c, _, hcase⟩ := send_ret_inv s s' item err hu
    rcases hcase with ⟨rfl, rfl⟩ | ⟨e, rfl, rfl⟩
    · intro k h hk x hx
      simp only [getElem?_appendAll] at hk
      rcases hr : s.objects[k]? with _ | h0
      · simp [hr] at hk
      · simp only [hr, Option.map_some', Option.some.injEq] at hk
        simp only [sentItems, List.mem_append, List.mem_singleton]
        by_cases hin : k ∈ s.readers
        · simp only [hin, if_true] at hk
          subst hk
          simp only [List.mem_append, List.mem_singleton] at hx
          rcases hx with hx | hx
          · exact Or.inl (hq k h0 hr x hx)
          · exact Or.inr hx
        · simp only [hin, if_false] at hk
          subst hk
          exact Or.inl (hq k h0 hr x hx)
    · intro k h hk x hx
      simp only [sentItems, List.append_nil]
      exact hq k h hk x hx
  | Pending r =>
    obtain ⟨u, hu⟩ := retState_eq_some _ _ hc
    obtain ⟨_, rfl⟩ := Pending_ret_inv s s' r u hu
    simpa [sentItems] using hq
  | Next r =>
    obtain ⟨u, hu⟩ := retState_eq_some _ _ hc
    obtain ⟨_, h, hr, hcase⟩ := Next_ret_inv s s' r u hu
    simp only [sentItems, List.append_nil]
    rcases hcase with ⟨_, _, rfl⟩ | ⟨_, y, rest, hi, _, rfl⟩ | ⟨_, _, _, _, rfl⟩
    · exact hq
    · intro k h' hk x hx
      by_cases hkr : r = k
      · subst hkr
        have hlt := lt_length_of_getElem? _ _ _ hr
        simp only [List.getElem?_set, hlt, if_true, Option.some.injEq] at hk
        subst hk
        simp only at hx
        exact hq r h hr x (by rw [hi]; exact List.mem_cons_of_mem _ hx)
      · simp only [List.getElem?_set_ne hkr] at hk
        exact hq k h' hk x hx
    · exact hq
  | Clone r =>
    obtain ⟨u, hu⟩ := retState_eq_some _ _ hc
    obtain ⟨_, h, hr, _, rfl⟩ := Clone_ret_inv s s' r u hu
    simp only [sentItems, List.append_nil]
    intro k h' hk x hx
    by_cases hlt : k < s.objects.length
    · simp only [List.getElem?_append_left hlt] at hk
      exact hq k h' hk x hx
    · have hge : s.objects.length ≤ k := Nat.le_of_not_lt hlt
      simp only [List.getElem?_append_right hge] at hk
      rcases hk0 : k - s.objects.length with _ | m
      · rw [hk0] at hk
        simp only [List.getElem?_cons_zero, Option.some.injEq] at hk
        subst hk
        exact hq r h hr x hx
      · rw [hk0] at hk
        simp at hk
  | Close r =>
    obtain ⟨u, hu⟩ := retState_eq_some _ _ hc
    cases u
    obtain ⟨_, hlt, rfl⟩ := Close_ret_inv s s' r hu
    simp only [sentItems, List.append_nil]
    intro k h' hk x hx
    by_cases hkr : r = k
    · subst hkr
      simp only [List.getElem?_set, hlt, if_true, Option.some.injEq] at hk
      subst hk
      cases hx
    · simp only [List.getElem?_set_ne hkr] at hk
      exact hq k h' hk x hx

/-- Along a run of returning calls: the lock stays free, the subscribed readers stay
the open ones, closed readers stay empty, the terminal slot and the stored error
stay in agreement, and the queues hold nothing but queued or sent items. -/
theorem callsRet_invariants {T : Type} [Inhabited T] (cs : List (StreamCall T))
    (s s' : streamTracker T) (L : List T) (hm : s.mu = false) (hsub : Subscribed s)
    (hce : ClosedEmpty s) (hsa : SlotAgrees s) (hq : QueuedFrom s L)
    (hc : s.callsRet cs = some s') :
    s'.mu = false ∧ Subscribed s' ∧ ClosedEmpty s' ∧ SlotAgrees s' ∧
    QueuedFrom s' (L ++ sentItems cs) := by
  induction cs generalizing s L with
  | nil =>
    simp only [streamTracker.callsRet, Option.some.injEq] at hc
    subst hc
    exact ⟨hm, hsub, hce, hsa, by simpa [sentItems] using hq⟩
  | cons c cs ih =>
    simp only [streamTracker.callsRet] at hc
    rcases h1 : s.callRet c with _ | s1
    · simp [h1] at hc
    · simp only [h1, Option.some_bind] at hc
      obtain ⟨_, hm1, hsub1⟩ := callRet_keeps s s1 c hsub h1
      have hce1 := ClosedEmpty_callRet s s1 c hsub hce h1
      have hsa1 := SlotAgrees_callRet s s1 c hsa h1
      have hq1 := QueuedFrom_callRet s s1 L c hq h1
      have := ih s1 (L ++ sentItems [c]) hm1 hsub1 hce1 hsa1 hq1 hc
      rw [sentItems_cons c cs, ← List.append_assoc]
      exact this

/-- The invariants hold in the state `NewStream` returns and so after every run of
returning calls from it. -/
theorem NewStream_invariants {T : Type} [Inhabited T] (cs : List (StreamCall T))
    (s : streamTracker T) (hc : (NewStream T).callsRet cs = some s) :
    s.mu = false ∧ Subscribed s ∧ ClosedEmpty s ∧ SlotAgrees s ∧
    QueuedFrom s (sentItems cs) := by
  have h := callsRet_invariants cs (NewStream T) s [] rfl (Subscribed_NewStream T)
    (by
      intro k h hk hcl
      rcases k with _ | k
      · simp [NewStream] at hk
        subst hk
        rfl
      · simp [NewStream] at hk)
    (by simp [SlotAgrees, NewStream])
    (by
      intro k h hk x hx
      rcases k with _ | k
      · simp [NewStream] at hk
        subst hk
        cases hx
      · simp [NewStream] at hk)
    hc
  simpa using h

/-- While the lock is held, every reader call and every `send` blocks. -/
theorem blocked_of_locked {T : Type} [Inhabited T] (s : streamTracker T) (r : Nat) (item : T)
    (err : error) (hm : s.mu = true) :
    streamReader.Pending s r = .blocked ∧ streamReader.Next s r = .blocked ∧
    streamReader.Clone s r = .blocked ∧ streamReader.Close s r = .blocked ∧
    s.send item err = .blocked := by
  simp [streamReader.Pending, streamReader.Next, streamReader.Clone, streamReader.Close,
    streamTracker.send, hm]

/-! ### Claims on the invariants of the stream -/

/-- C21. Subscription invariant. In every state reached from `NewStream` by returning
calls (`send`, `Next`, `Clone`, `Close`, `Pending`, on any reader, closed ones
included): a reader object is a key of `readers` exactly when it is not closed;
every closed reader has an empty queue; a returning `send` of an item leaves every
closed reader object as it was; and `Clone` on a closed reader returns a new reader
that is open, subscribed and empty, in a state that is reached from `NewStream` too,
the closed reader staying closed and unsubscribed. -/
theorem subscription_invariant {T : Type} [Inhabited T] (s : streamTracker T)
    (hs : Reachable s) :
    (∀ (k : Nat) (h : streamReader T), s.objects[k]? = some h →
      (k ∈ s.readers ↔ h.closed = false)) ∧
    (∀ (k : Nat) (h : streamReader T), s.objects[k]? = some h → h.closed = true →
      h.items = []) ∧
    (∀ (item : T) (s' : streamTracker T), s.send item none = .ret () s' →
      ∀ (k : Nat) (h : streamReader T), s.objects[k]? = some h → h.closed = true →
        s'.objects[k]? = some h) ∧
    (∀ (r : Nat) (h : streamReader T), s.objects[r]? = some h → h.closed = true →
      ∃ s' : streamTracker T,
        streamReader.Clone s r = .ret s.objects.length s' ∧ Reachable s' ∧
        s'.objects[s.objects.length]? = some { items := [], closed := false } ∧
        s.objects.length ∈ s'.readers ∧
        s'.objects[r]? = some h ∧ r ∉ s'.readers) := by
  obtain ⟨cs, hcs⟩ := hs
  obtain ⟨hm, hsub, hce, _, _⟩ := NewStream_invariants cs s hcs
  refine ⟨hsub, hce, ?_, ?_⟩
  · intro item s' hsend k h hk hcl
    obtain ⟨_, c, _, hcase⟩ := send_ret_inv s s' item none hsend
    rcases hcase with ⟨_, rfl⟩ | ⟨e, he, _⟩
    · have hnin : k ∉ s.readers := fun hin => by
        have := (hsub k h hk).mp hin
        rw [this] at hcl
        cases hcl
      simp [getElem?_appendAll, hk, hnin]
    · cases he
  · intro r h hr hcl
    have hrl := lt_length_of_getElem? _ _ _ hr
    have hnin : r ∉ s.readers := fun hin => by
      have := (hsub r h hr).mp hin
      rw [this] at hcl
      cases hcl
    have hclone : streamReader.Clone s r = .ret s.objects.length
        { s with objects := s.objects ++ [{ items := h.items, closed := false }],
                 readers := s.readers.insert s.objects.length } := by
      simp [streamReader.Clone, hm, hr]
    refine ⟨_, hclone, ?_, ?_, ?_, ?_, ?_⟩
    · exact Reachable.step s _ (.Clone r) ⟨cs, hcs⟩
        (by simp [streamTracker.callRet, hclone, Outcome.retState])
    · simp [hce r h hr hcl]
    · simp [List.mem_insert_iff]
    · simp only [List.getElem?_append_left hrl]
      exact hr
    · simp only [List.mem_insert_iff, not_or]
      exact ⟨by omega, hnin⟩

/-- C21 at a concrete input: the reader of a fresh stream was closed, then cloned,
then `5` was sent; the closed reader is empty and unsubscribed, the clone holds `5`
and is subscribed. -/
theorem subscription_invariant_witness :
    Reachable closedCloneDemo ∧
    0 ∉ closedCloneDemo.readers ∧ 1 ∈ closedCloneDemo.readers :=
  have hreach : Reachable closedCloneDemo := ⟨[.Close 0, .Clone 0, .Send 5 none], rfl⟩
  have h := (subscription_invariant closedCloneDemo hreach).1
  ⟨hreach,
    fun hin => Bool.noConfusion ((h 0 { items := [], closed := true } rfl).mp hin),
    (h 1 { items := [5], closed := false } rfl).mpr rfl⟩

/-- C22. Terminal slot and error agree. In every state reached from `NewStream` by a
run `cs` of returning calls: `pending` is nil exactly when the stored error is
non-nil.  Hence a `Next` that returns a nil error took the item branch: the reader
is open, the value returned is the front of its queue, and it is one of the items
sent during `cs`.  And a `Next` that takes the terminal branch (open reader, empty
queue, `pending` nil) returns the zero value with a non-nil error. -/
theorem terminal_slot_agrees {T : Type} [Inhabited T] (cs : List (StreamCall T))
    (s : streamTracker T) (hrun : (NewStream T).callsRet cs = some s) :
    (s.pending = none ↔ s.err ≠ none) ∧
    (∀ (r : Nat) (v : T) (s' : streamTracker T),
      streamReader.Next s r = .ret (v, none) s' →
      ∃ (h : streamReader T) (rest : List T),
        s.objects[r]? = some h ∧ h.closed = false ∧ h.items = v :: rest ∧
        v ∈ sentItems cs ∧
        s' = { s with objects := s.objects.set r { h with items := rest } }) ∧
    (∀ (r : Nat) (h : streamReader T), s.objects[r]? = some h → h.closed = false →
      h.items = [] → s.pending = none →
      ∃ E : GoError, s.err = some E ∧ streamReader.Next s r = .ret (default, some E) s) := by
  obtain ⟨hm, _, _, hsa, hq⟩ := NewStream_invariants cs s hrun
  refine ⟨hsa, ?_, ?_⟩
  · intro r v s' hn
    obtain ⟨_, h, hr, hcase⟩ := Next_ret_inv s s' r (v, none) hn
    rcases hcase with ⟨_, hres, _⟩ | ⟨hopen, x, rest, hi, hres, hs'⟩ | ⟨_, _, hp, hres, _⟩
    · simp at hres
    · simp only [Prod.mk.injEq, and_true] at hres
      subst hres
      exact ⟨h, rest, hr, hopen, hi, hq r h hr v (by rw [hi]; exact List.mem_cons_self _ _),
        hs'⟩
    · simp only [Prod.mk.injEq] at hres
      exact absurd hres.2.symm (hsa.mp hp)
  · intro r h hr hopen hi hp
    obtain ⟨E, hE⟩ := Option.ne_none_iff_exists'.mp (hsa.mp hp)
    refine ⟨E, hE, ?_⟩
    rw [Next_of_terminal s r h hm hr hopen hi hp, hE]

/-- C22 at a concrete input: after `5` was sent to a fresh stream, `Next` returns `5`
with a nil error, and `5` is the item sent. -/
theorem terminal_slot_agrees_witness :
    (NewStream Nat).callsRet [.Send 5 none] = some itemDemo ∧
    (itemDemo.pending = none ↔ itemDemo.err ≠ none) ∧
    ∃ (h : streamReader Nat) (rest : List Nat),
      itemDemo.objects[0]? = some h ∧ h.items = 5 :: rest ∧ 5 ∈ sentItems [StreamCall.Send 5 none] :=
  have h := terminal_slot_agrees [.Send 5 none] itemDemo rfl
  ⟨rfl, h.1,
    let ⟨h0, rest, k1, _, k3, k4, _⟩ := h.2.1 0 5
      { itemDemo with objects := [{ items := [], closed := false }] } rfl
    ⟨h0, rest, k1, k3, k4⟩⟩

/-- C23 (failing input). On a fresh stream the terminal error `E` is sent; the
reader can then call `Pending` (ready) and `Next` (the zero value with `E`).  A
`send` of an item then panics with "item sent to stream after error", and a `send`
of a second error panics with "multiple errors sent to stream".  Either panic
leaves the queues, the flags, `readers`, the stored error and the terminal slot as
they were, but the lock held: after the panic is recovered, `Pending`, `Next`,
`Clone` and `Close` of the reader all block in `RLock` or `Lock`. -/
theorem faulting_send_leaves_lock_held {T : Type} [Inhabited T] (x d d' : T)
    (E E' : GoError) :
    ∃ s1 s2 : streamTracker T,
      (NewStream T).send d (some E) = .ret () s1 ∧
      s1.mu = false ∧
      streamReader.Pending s1 0 = .ret .ready s1 ∧
      streamReader.Next s1 0 = .ret (default, some E) s1 ∧
      s1.send x none = .fault "item sent to stream after error" s2 ∧
      s1.send d' (some E') = .fault "multiple errors sent to stream" s2 ∧
      s2.objects = s1.objects ∧ s2.readers = s1.readers ∧ s2.err = s1.err ∧
      s2.pending = s1.pending ∧
      s2.mu = true ∧
      streamReader.Pending s2 0 = .blocked ∧
      streamReader.Next s2 0 = .blocked ∧
      streamReader.Clone s2 0 = .blocked ∧
      streamReader.Close s2 0 = .blocked :=
  ⟨{ mu := false, readers := [0], err := some E, pending := none,
     objects := [{ items := [], closed := false }] },
   { mu := true, readers := [0], err := some E, pending := none,
     objects := [{ items := [], closed := false }] },
   rfl, rfl, rfl, rfl, rfl, rfl, rfl, rfl, rfl, rfl, rfl, rfl, rfl, rfl, rfl⟩

/-! ### Reader calls after a recovered panic of `send` -/

/-- C6 (failing input). The reader of a fresh stream is closed; then the terminal
error `E` is sent; `Next` on the closed reader returns the zero value with
`ErrStreamClosed` and `Pending` is ready.  A further `send` of an item panics with
"item sent to stream after error" and leaves the lock held.  After the panic is
recovered the reader is still closed with an empty queue, but its `Next` does not
return `ErrStreamClosed` and its `Pending` is not ready: both block in `RLock`. -/
theorem closed_reader_blocks_after_faulting_send {T : Type} [Inhabited T] (x d : T)
    (E : GoError) :
    ∃ s1 s2 s3 : streamTracker T,
      streamReader.Close (NewStream T) 0 = .ret () s1 ∧
      s1.send d (some E) = .ret () s2 ∧
      streamReader.Pending s2 0 = .ret .ready s2 ∧
      streamReader.Next s2 0 = .ret (default, some .ErrStreamClosed) s2 ∧
      s2.send x none = .fault "item sent to stream after error" s3 ∧
      s3.objects[0]? = some { items := [], closed := true } ∧
      s3.mu = true ∧
      streamReader.Pending s3 0 = .blocked ∧
      streamReader.Next s3 0 = .blocked ∧
      (streamReader.Next s3 0).returned = false :=
  ⟨{ mu := false, readers := [], err := none, pending := some 0,
     objects := [{ items := [], closed := true }] },
   { mu := false, readers := [], err := some E, pending := none,
     objects := [{ items := [], closed := true }] },
   { mu := true, readers := [], err := some E, pending := none,
     objects := [{ items := [], closed := true }] },
   rfl, rfl, rfl, rfl, rfl, rfl, rfl, rfl, rfl, rfl⟩

/-- C9 (failing input). The terminal error `E` is sent to a fresh stream; the reader
is open with an empty queue and its `Next` returns the zero value with `E`.  A
second terminal error `E'` panics with "multiple errors sent to stream" and leaves
the lock held; the stored error is still `E`.  After the panic is recovered the
reader is still open with an empty queue and `E` has been sent, but its `Next` does
not return `E`: it blocks in `RLock`, and so does `Clone` in `Lock`. -/
theorem terminal_replay_blocks_after_faulting_send {T : Type} [Inhabited T] (d d' : T)
    (E E' : GoError) :
    ∃ s1 s2 : streamTracker T,
      (NewStream T).send d (some E) = .ret () s1 ∧
      streamReader.Next s1 0 = .ret (default, some E) s1 ∧
      s1.send d' (some E') = .fault "multiple errors sent to stream" s2 ∧
      s2.objects[0]? = some { items := [], closed := false } ∧
      s2.pending = none ∧ s2.err = some E ∧ s2.mu = true ∧
      streamReader.Next s2 0 = .blocked ∧
      (streamReader.Next s2 0).returned = false ∧
      streamReader.Clone s2 0 = .blocked :=
  ⟨{ mu := false, readers := [0], err := some E, pending := none,
     objects := [{ items := [], closed := false }] },
   { mu := true, readers := [0], err := some E, pending := none,
     objects := [{ items := [], closed := false }] },
   rfl, rfl, rfl, rfl, rfl, rfl, rfl, rfl, rfl, rfl⟩

/-- C13 (failing input). The item `x` and then the terminal error `E` are sent to a
fresh stream: the queue of the reader is not empty and the terminal slot is set, and
`Pending` is ready.  A further `send` of an item panics and leaves the lock held,
changing neither the queue nor the terminal slot.  After the panic is recovered the
queue is still not empty and the terminal slot still set, but `Pending` hands out no
channel at all, ready or shared: it blocks in `RLock`. -/
theorem pending_blocks_after_faulting_send {T : Type} (x y d : T) (E : GoError) :
    ∃ s1 s2 s3 : streamTracker T,
      (NewStream T).send x none = .ret () s1 ∧
      s1.send d (some E) = .ret () s2 ∧
      streamReader.Pending s2 0 = .ret .ready s2 ∧
      s2.send y none = .fault "item sent to stream after error" s3 ∧
      s3.objects[0]? = some { items := [x], closed := false } ∧
      s3.pending = none ∧ s3.mu = true ∧
      streamReader.Pending s3 0 = .blocked ∧
      (streamReader.Pending s3 0).returned = false :=
  ⟨{ mu := false, readers := [0], err := none, pending := some 1,
     objects := [{ items := [x], closed := false }] },
   { mu := false, readers := [0], err := some E, pending := none,
     objects := [{ items := [x], closed := false }] },
   { mu := true, readers := [0], err := some E, pending := none,
     objects := [{ items := [x], closed := false }] },
   rfl, rfl, rfl, rfl, rfl, rfl, rfl, rfl, rfl⟩

end Futures
